import Mathlib

/-!
Verification development for the dhall-rust kernel: the expression AST with
capture-avoiding shift/substitution (modelled from the spec, since the
`dhall_core::core` module is not part of the sources at hand) and the
beta/iota normalizer translated from `dhall_normalize/src/normalize.rs`,
together with the double-quote escape conversion from
`dhall_core/src/parser.rs`.
-/

namespace DhallSpec

/-- The two universe levels (`Const` payload). -/
inductive Konst where
  | type
  | kind
deriving DecidableEq, Repr

/-- Built-in identifiers referenced by the normalizer, plus the builtin type
constructors `Bool`, `Natural`, `Integer`, `Double`, `Text`, `List`,
`Optional` from the data model. -/
inductive Builtin where
  | bool
  | natural
  | integer
  | double
  | text
  | list
  | optional
  | naturalFold
  | naturalBuild
  | naturalIsZero
  | naturalEven
  | naturalOdd
  | naturalToInteger
  | naturalShow
  | listBuild
  | listFold
  | listLength
  | listHead
  | listLast
  | listIndexed
  | listReverse
  | optionalFold
  | optionalBuild
deriving DecidableEq, Repr

/-- The binary operators of the data model. -/
inductive BinOp where
  | boolAnd
  | boolOr
  | boolEQ
  | boolNE
  | naturalPlus
  | naturalTimes
  | textAppend
  | listAppend
  | combine
  | combineTypes
  | importAlt
  | prefer
deriving DecidableEq, Repr

/-- Variable reference `V(x, n)`: the `n`-th most recent binder named `x`. -/
structure Var where
  name : String
  idx : Nat
deriving DecidableEq, Repr

/-- A double literal, carried opaquely as its 64 bit pattern (the normalizer
only clones doubles, it never computes with them). -/
structure Double where
  bits : Nat
deriving DecidableEq, Repr

/-- The Dhall expression AST of the data model (§3).  Record / union fields
are association lists from label to expression, ordered as the `BTreeMap`
of the source keeps them (lexicographically, keys unique); the normalizer
never reorders them.  A text literal carries interpolated text (§3): a
sequence of literal chunks (`Sum.inl`, the source's
`InterpolatedTextContents::Text`) and expression holes (`Sum.inr`, the
source's `InterpolatedTextContents::Expr`, parser.rs lines 342-351), and
`+` on two such texts concatenates the sequences.  The source-note payload
of `Note` and the embed payload of `Embed` are carried as strings, opaque
to every operation. -/
inductive Expr where
  | const (k : Konst)
  | var (v : Var)
  | lam (x : String) (ty : Expr) (body : Expr)
  | pi (x : String) (ty : Expr) (body : Expr)
  | app (f : Expr) (a : Expr)
  | «let» (x : String) (ty : Option Expr) (r : Expr) (body : Expr)
  | annot (e : Expr) (ty : Expr)
  | builtin (b : Builtin)
  | boolLit (b : Bool)
  | naturalLit (n : Nat)
  | integerLit (n : Int)
  | doubleLit (d : Double)
  | textLit (t : List (String ⊕ Expr))
  | binOp (op : BinOp) (x : Expr) (y : Expr)
  | boolIf (c : Expr) (t : Expr) (f : Expr)
  | listLit (ty : Option Expr) (es : List Expr)
  | optionalLit (ty : Option Expr) (es : List Expr)
  | record (kts : List (String × Expr))
  | recordLit (kvs : List (String × Expr))
  | union (kts : List (String × Expr))
  | unionLit (k : String) (v : Expr) (kvs : List (String × Expr))
  | merge (x : Expr) (y : Expr) (t : Option Expr)
  | field (r : Expr) (x : String)
  | note (s : String) (e : Expr)
  | embed (a : String)

mutual

/-- Modelled from the spec: `shift(d, V(x, m), e)` (§4.2) adds `d ∈ {+1,−1}`
to every free occurrence of a variable named `x` with index `≥ m`; entering
a binder that binds `x` increments `m` by one before recursing into the body
(and, for `Let`, into the annotation); the bound expression of a `Let` is
traversed with the outer `m`. -/
def shift (d : Int) (x : String) (m : Nat) : Expr → Expr
  | .const k => .const k
  | .var v =>
      if v.name = x ∧ m ≤ v.idx then .var ⟨v.name, (Int.ofNat v.idx + d).toNat⟩
      else .var v
  | .lam y ty body =>
      .lam y (shift d x m ty) (shift d x (if y = x then m + 1 else m) body)
  | .pi y ty body =>
      .pi y (shift d x m ty) (shift d x (if y = x then m + 1 else m) body)
  | .app f a => .app (shift d x m f) (shift d x m a)
  | .«let» y ty r body =>
      .«let» y (shiftOpt d x (if y = x then m + 1 else m) ty) (shift d x m r)
        (shift d x (if y = x then m + 1 else m) body)
  | .annot e ty => .annot (shift d x m e) (shift d x m ty)
  | .builtin b => .builtin b
  | .boolLit b => .boolLit b
  | .naturalLit n => .naturalLit n
  | .integerLit n => .integerLit n
  | .doubleLit dd => .doubleLit dd
  | .textLit t => .textLit (shiftText d x m t)
  | .binOp op a b => .binOp op (shift d x m a) (shift d x m b)
  | .boolIf c t f => .boolIf (shift d x m c) (shift d x m t) (shift d x m f)
  | .listLit ty es => .listLit (shiftOpt d x m ty) (shiftList d x m es)
  | .optionalLit ty es =>
      .optionalLit (shiftOpt d x m ty) (shiftList d x m es)
  | .record kts => .record (shiftFields d x m kts)
  | .recordLit kvs => .recordLit (shiftFields d x m kvs)
  | .union kts => .union (shiftFields d x m kts)
  | .unionLit k v kvs =>
      .unionLit k (shift d x m v) (shiftFields d x m kvs)
  | .merge a b t =>
      .merge (shift d x m a) (shift d x m b) (shiftOpt d x m t)
  | .field r l => .field (shift d x m r) l
  | .note s e => .note s (shift d x m e)
  | .embed a => .embed a
termination_by structural e => e

def shiftOpt (d : Int) (x : String) (m : Nat) : Option Expr → Option Expr
  | none => none
  | some e => some (shift d x m e)
termination_by structural t => t

def shiftList (d : Int) (x : String) (m : Nat) : List Expr → List Expr
  | [] => []
  | e :: es => shift d x m e :: shiftList d x m es
termination_by structural es => es

def shiftFields (d : Int) (x : String) (m : Nat) :
    List (String × Expr) → List (String × Expr)
  | [] => []
  | (k, v) :: kvs => (k, shift d x m v) :: shiftFields d x m kvs
termination_by structural kvs => kvs

def shiftText (d : Int) (x : String) (m : Nat) :
    List (String ⊕ Expr) → List (String ⊕ Expr)
  | [] => []
  | .inl s :: cs => .inl s :: shiftText d x m cs
  | .inr e :: cs => .inr (shift d x m e) :: shiftText d x m cs
termination_by structural cs => cs

end

mutual

/-- Modelled from the spec: `subst(V(x, n), r, e)` (§4.3) replaces free
occurrences of `V(x, n)` in `e` by `r`; crossing any binder shifts `r` by
`+1` on that binder's name, and additionally increments `n` when the binder
is named `x`. -/
def subst (x : String) (n : Nat) (r : Expr) : Expr → Expr
  | .const k => .const k
  | .var v => if v.name = x ∧ v.idx = n then r else .var v
  | .lam y ty body =>
      .lam y (subst x n r ty)
        (subst x (if y = x then n + 1 else n) (shift 1 y 0 r) body)
  | .pi y ty body =>
      .pi y (subst x n r ty)
        (subst x (if y = x then n + 1 else n) (shift 1 y 0 r) body)
  | .app f a => .app (subst x n r f) (subst x n r a)
  | .«let» y ty rr body =>
      .«let» y (substOpt x n r ty) (subst x n r rr)
        (subst x (if y = x then n + 1 else n) (shift 1 y 0 r) body)
  | .annot e ty => .annot (subst x n r e) (subst x n r ty)
  | .builtin b => .builtin b
  | .boolLit b => .boolLit b
  | .naturalLit m => .naturalLit m
  | .integerLit m => .integerLit m
  | .doubleLit dd => .doubleLit dd
  | .textLit t => .textLit (substText x n r t)
  | .binOp op a b => .binOp op (subst x n r a) (subst x n r b)
  | .boolIf c t f => .boolIf (subst x n r c) (subst x n r t) (subst x n r f)
  | .listLit ty es => .listLit (substOpt x n r ty) (substList x n r es)
  | .optionalLit ty es => .optionalLit (substOpt x n r ty) (substList x n r es)
  | .record kts => .record (substFields x n r kts)
  | .recordLit kvs => .recordLit (substFields x n r kvs)
  | .union kts => .union (substFields x n r kts)
  | .unionLit k v kvs => .unionLit k (subst x n r v) (substFields x n r kvs)
  | .merge a b t => .merge (subst x n r a) (subst x n r b) (substOpt x n r t)
  | .field rec l => .field (subst x n r rec) l
  | .note s e => .note s (subst x n r e)
  | .embed a => .embed a
termination_by structural e => e

def substOpt (x : String) (n : Nat) (r : Expr) : Option Expr → Option Expr
  | none => none
  | some e => some (subst x n r e)
termination_by structural t => t

def substList (x : String) (n : Nat) (r : Expr) : List Expr → List Expr
  | [] => []
  | e :: es => subst x n r e :: substList x n r es
termination_by structural es => es

def substFields (x : String) (n : Nat) (r : Expr) :
    List (String × Expr) → List (String × Expr)
  | [] => []
  | (k, v) :: kvs => (k, subst x n r v) :: substFields x n r kvs
termination_by structural kvs => kvs

def substText (x : String) (n : Nat) (r : Expr) :
    List (String ⊕ Expr) → List (String ⊕ Expr)
  | [] => []
  | .inl s :: cs => .inl s :: substText x n r cs
  | .inr e :: cs => .inr (subst x n r e) :: substText x n r cs
termination_by structural cs => cs

end

/-- Failure modes of the shallow embedding: `unimplemented` models the
`unimplemented!()` panics of the source, `internal` models the
`panic!("internalError ...")` in `list_to_vector`, and `fuel` marks that the
modelled recursion was cut off (the source recursion is unbounded). -/
inductive Err where
  | unimplemented
  | internal
  | fuel
deriving DecidableEq, Repr

/-- Result type of the embedded normalizer. -/
abbrev Res := Except Err Expr

/-- The 64-bit word size of the source's `usize`/`isize` literals. -/
def wordSize : Nat := 2 ^ 64

/-- Machine addition on `usize` as in `xn + yn` (normalize.rs line 217):
unchecked, so it wraps at the word size. -/
def usizeAdd (a b : Nat) : Nat := (a + b) % wordSize

/-- Machine multiplication on `usize` as in `xn * yn` (line 224). -/
def usizeMul (a b : Nat) : Nat := (a * b) % wordSize

/-- The raw cast `n as isize` (normalize.rs line 81): reinterprets the
64-bit pattern as a signed machine integer. -/
def usizeAsIsize (n : Nat) : Int :=
  if n < 2 ^ 63 then (n : Int) else (n : Int) - wordSize

/-- Modelled from the spec: the getter `Expr::bool_lit` used by `with_binop`
(§4.4 reduces the boolean operators on two `BoolLit`s). -/
def boolLitOf : Expr → Option Bool
  | .boolLit b => some b
  | _ => none

/-- Modelled from the spec: the getter `Expr::natural_lit` used by
`with_binop` (§4.4 reduces `NaturalPlus`/`NaturalTimes` on two literals). -/
def naturalLitOf : Expr → Option Nat
  | .naturalLit n => some n
  | _ => none

/-- Modelled from the spec: the getter `Expr::text_lit` used by `with_binop`
(§4.4 reduces `TextAppend` on two text literals); it yields the
interpolated-text chunk sequence. -/
def textLitOf : Expr → Option (List (String ⊕ Expr))
  | .textLit t => some t
  | _ => none

/-- `with_binop` from normalize.rs lines 270-286: reduce when both operands
project through `get`, otherwise keep the `BinOp` with the (already
normalized) operands. -/
def withBinop {U : Type} (op : BinOp) (get : Expr → Option U)
    (set : U → U → Expr) (x y : Expr) : Expr :=
  match get x, get y with
  | some xv, some yv => set xv yv
  | _, _ => .binOp op x y

/-- `list_to_vector` from normalize.rs lines 88-99: flatten a `Cons`/`Nil`
variable spine into the list of its elements, in order; `none` stands for
the `panic!("internalError list_to_vector")` of the source. -/
def listToVector : Expr → Option (List Expr)
  | .app (.app (.var ⟨"Cons", _⟩) x) e2 => (listToVector e2).map (x :: ·)
  | .var ⟨"Nil", _⟩ => some []
  | _ => none

/-- `check` from normalize.rs lines 100-106: is the expression a fully
`Cons`/`Nil` variable spine? -/
def check : Expr → Bool
  | .app (.app (.var ⟨"Cons", _⟩) _) e2 => check e2
  | .var ⟨"Nil", _⟩ => true
  | _ => false

/-- The `List/last` argument list: `ys.into_iter().last()` collected as a
zero-or-one element list (normalize.rs line 128). -/
def lastAsList (ys : List Expr) : List Expr :=
  match ys.getLast? with
  | some x => [x]
  | none => []

/-- `BTreeMap::get` on the association-list model of record fields. -/
def lookupField : List (String × Expr) → String → Option Expr
  | [], _ => none
  | (k, v) :: kvs, x => if k = x then some v else lookupField kvs x

/-- Normalize an optional type annotation (`t.as_ref().map(normalize)`),
parameterized by the recursive normalizer `go`. -/
def normOpt (go : Expr → Res) : Option Expr → Except Err (Option Expr)
  | none => .ok none
  | some t => do .ok (some (← go t))

/-- Normalize every item of a list (`es.iter().map(normalize).collect()`). -/
def normList (go : Expr → Res) : List Expr → Except Err (List Expr)
  | [] => .ok []
  | e :: es => do .ok ((← go e) :: (← normList go es))

/-- `map_record_value(kvs, normalize)`: normalize the value of every field,
keeping the keys and their order. -/
def normFields (go : Expr → Res) :
    List (String × Expr) → Except Err (List (String × Expr))
  | [] => .ok []
  | (k, v) :: kvs => do .ok ((k, (← go v)) :: (← normFields go kvs))

/-- Arms 1-4 of the application dispatch (normalize.rs lines 46-52):
fold/build fusion for `List` (both orders, on the pair
`(App(Builtin(ListBuild), _), App(App(Builtin(ListFold), _), e2))` and the
converse) and for `Natural` (both orders, on
`(Builtin(NaturalBuild), App(Builtin(NaturalFold), e2))` and the converse).
Returns the inner expression to re-normalize when a fusion arm matches. -/
def fusionArg (f2 a2 : Expr) : Option Expr :=
  match f2, a2 with
  | .app (.builtin .listBuild) _, .app (.app (.builtin .listFold) _) e2
  | .app (.builtin .listFold) _, .app (.app (.builtin .listBuild) _) e2
  | .builtin .naturalBuild, .app (.builtin .naturalFold) e2
  | .builtin .naturalFold, .app (.builtin .naturalBuild) e2 => some e2
  | _, _ => none

/-- Arms 5-9 of the application dispatch (normalize.rs lines 78-82): the
`Natural` built-ins applied to a `NaturalLit`, each returning a literal. -/
def naturalRedex (f2 a2 : Expr) : Option Expr :=
  match f2, a2 with
  | .builtin .naturalIsZero, .naturalLit n => some (.boolLit (n == 0))
  | .builtin .naturalEven, .naturalLit n => some (.boolLit (n % 2 == 0))
  | .builtin .naturalOdd, .naturalLit n => some (.boolLit (n % 2 != 0))
  | .builtin .naturalToInteger, .naturalLit n =>
      some (.integerLit (usizeAsIsize n))
  | .builtin .naturalShow, .naturalLit n =>
      some (.textLit [.inl (Nat.repr n)])
  | _, _ => none

/-- Arm 10's shape test (normalize.rs line 83): `f2` is
`App(Builtin(ListBuild), t)`; yields the element type `t`. -/
def listBuildArg : Expr → Option Expr
  | .app (.builtin .listBuild) t => some t
  | _ => none

/-- Arm 11's shape test (normalize.rs line 116): `f2` is the four-deep
`List/fold` spine; yields the literal's items and the `cons` argument. -/
def listFoldRedex : Expr → Option (List Expr × Expr)
  | .app (.app (.app (.app (.builtin .listFold) _) (.listLit _ xs)) _) consF =>
      some (xs, consF)
  | _ => none

/-- Arm 12's shape test (normalize.rs line 122): the pair is
`(App(f, x_), ListLit(t, ys))`; yields `(f, x_, t, ys)`. -/
def appListLitArg (f2 a2 : Expr) :
    Option (Expr × Expr × Option Expr × List Expr) :=
  match f2, a2 with
  | .app f x_, .listLit t ys => some (f, x_, t, ys)
  | _, _ => none

/-- Arm 13's shape test (normalize.rs line 151): `f2` is the four-deep
`Optional/fold` spine; yields the literal's items and the `just`
argument. -/
def optionalFoldRedex : Expr → Option (List Expr × Expr)
  | .app (.app (.app (.app (.builtin .optionalFold) _) (.optionalLit _ xs)) _)
      just => some (xs, just)
  | _ => none

/-- Arm 14's shape test (normalize.rs line 157): `Optional` fusion on the
pair `(App(Builtin(OptionalBuild), _), App(App(Builtin(OptionalFold), _),
b))`; yields `b`.  This is the only `Optional` fusion direction in the
source. -/
def optionalFusionArg (f2 a2 : Expr) : Option Expr :=
  match f2, a2 with
  | .app (.builtin .optionalBuild) _,
    .app (.app (.builtin .optionalFold) _) b => some b
  | _, _ => none

/-- Arm 15's shape test (normalize.rs line 160): `f2` is
`App(Builtin(OptionalBuild), a0)`; yields `a0`. -/
def optionalBuildArg : Expr → Option Expr
  | .app (.builtin .optionalBuild) a0 => some a0
  | _ => none

/-- The application dispatch of `normalize` (normalize.rs lines 45-169): the
match on the pair of the normalized function `f2` (known not to be a `Lam`)
and the normalized argument `a2`, with `go` the recursive normalizer.  The
source's single first-match `match` is rendered as a cascade of the shape
tests above, tried in exactly the source's arm order, so an arm fires here
if and only if it is the first arm of the source's match that matches.
Arm 10 replays `List/build`'s generator on the `Cons`/`Nil` variables
(`check`/`list_to_vector`), arm 11 folds `cons` over the items as the
source's `foldr` loop writes it, arm 12 dispatches the `List` built-ins on
a `ListLit` argument, arm 13 folds `just` over the `OptionalLit` items as
the source writes it (the closure discards the item), arm 15 replays
`Optional/build`'s generator, and the final case is the stuck application
`app(f2, a2)`. -/
def normApp (go : Expr → Res) (f2 a2 : Expr) : Res :=
  match fusionArg f2 a2 with
  | some e2 => go e2
  | none =>
  match naturalRedex f2 a2 with
  | some e => .ok e
  | none =>
  match listBuildArg f2 with
  | some t => do
      let labeled ← go (.app (.app (.app a2 (.app (.builtin .list) t))
        (.var ⟨"Cons", 0⟩)) (.var ⟨"Nil", 0⟩))
      if check labeled then
        match listToVector labeled with
        | some v => .ok (.listLit (some t) v)
        | none => .error .internal
      else
        .ok (.app (.app (.builtin .listBuild) t) a2)
  | none =>
  match listFoldRedex f2 with
  | some (xs, consF) =>
      go (xs.reverse.foldl (fun y ys => .app (.app consF y) ys) a2)
  | none =>
  match appListLitArg f2 a2 with
  | some (f, x_, t, ys) =>
      match f with
      | .builtin .listLength => .ok (.naturalLit ys.length)
      | .builtin .listHead => go (.optionalLit t (ys.take 1))
      | .builtin .listLast => go (.optionalLit t (lastAsList ys))
      | .builtin .listReverse => go (.listLit t ys.reverse)
      | _ => .ok (.app (.app f x_) (.listLit t ys))
  | none =>
  match optionalFoldRedex f2 with
  | some (xs, just) => go (xs.foldl (fun y _ => .app just y) a2)
  | none =>
  match optionalFusionArg f2 a2 with
  | some b => go b
  | none =>
  match optionalBuildArg f2 with
  | some a0 =>
      go (.app (.app (.app a2 (.app (.builtin .optional) a0))
        (.lam "x" a0 (.optionalLit (some a0) [.var ⟨"x", 0⟩])))
        (.optionalLit (some a0) []))
  | none => .ok (.app f2 a2)

/-- The normalizer of normalize.rs lines 14-268, with fuel standing for the
source's unbounded recursion: every recursive call of the source runs at one
unit less.  `Merge` and the binary operators without a rule (`ListAppend`,
`Combine`, `CombineTypes`, `Prefer`, `ImportAlt`) reach the source's
`unimplemented!()` and are reported as `Err.unimplemented`. -/
def norm : Nat → Expr → Res
  | 0, _ => .error .fuel
  | fuel + 1, e =>
    match e with
    | .const k => .ok (.const k)
    | .var v => .ok (.var v)
    | .lam x tA b => do
        let tA2 ← norm fuel tA
        let b2 ← norm fuel b
        .ok (.lam x tA2 b2)
    | .pi x tA tB => do
        let tA2 ← norm fuel tA
        let tB2 ← norm fuel tB
        .ok (.pi x tA2 tB2)
    | .app f a => do
        let f2 ← norm fuel f
        match f2 with
        | .lam x _A b =>
            norm fuel (shift (-1) x 0 (subst x 0 (shift 1 x 0 a) b))
        | f2 => do
            let a2 ← norm fuel a
            normApp (norm fuel) f2 a2
    | .«let» f _ r b =>
        norm fuel (shift (-1) f 0 (subst f 0 (shift 1 f 0 r) b))
    | .annot x _ => norm fuel x
    | .builtin v => .ok (.builtin v)
    | .boolLit b => .ok (.boolLit b)
    | .binOp .boolAnd x y => do
        .ok (withBinop .boolAnd boolLitOf (fun a b => .boolLit (a && b))
          (← norm fuel x) (← norm fuel y))
    | .binOp .boolOr x y => do
        .ok (withBinop .boolOr boolLitOf (fun a b => .boolLit (a || b))
          (← norm fuel x) (← norm fuel y))
    | .binOp .boolEQ x y => do
        .ok (withBinop .boolEQ boolLitOf (fun a b => .boolLit (a == b))
          (← norm fuel x) (← norm fuel y))
    | .binOp .boolNE x y => do
        .ok (withBinop .boolNE boolLitOf (fun a b => .boolLit (a != b))
          (← norm fuel x) (← norm fuel y))
    | .boolIf b t f => do
        let b2 ← norm fuel b
        match b2 with
        | .boolLit true => norm fuel t
        | .boolLit false => norm fuel f
        | b2 => do
            .ok (.boolIf b2 (← norm fuel t) (← norm fuel f))
    | .naturalLit n => .ok (.naturalLit n)
    | .binOp .naturalPlus x y => do
        .ok (withBinop .naturalPlus naturalLitOf
          (fun a b => .naturalLit (usizeAdd a b))
          (← norm fuel x) (← norm fuel y))
    | .binOp .naturalTimes x y => do
        .ok (withBinop .naturalTimes naturalLitOf
          (fun a b => .naturalLit (usizeMul a b))
          (← norm fuel x) (← norm fuel y))
    | .integerLit n => .ok (.integerLit n)
    | .doubleLit n => .ok (.doubleLit n)
    | .textLit t => .ok (.textLit t)
    | .binOp .textAppend x y => do
        .ok (withBinop .textAppend textLitOf (fun a b => .textLit (a ++ b))
          (← norm fuel x) (← norm fuel y))
    | .listLit t es => do
        .ok (.listLit (← normOpt (norm fuel) t) (← normList (norm fuel) es))
    | .optionalLit t es => do
        .ok (.optionalLit (← normOpt (norm fuel) t)
          (← normList (norm fuel) es))
    | .record kts => do .ok (.record (← normFields (norm fuel) kts))
    | .recordLit kvs => do .ok (.recordLit (← normFields (norm fuel) kvs))
    | .union kts => do .ok (.union (← normFields (norm fuel) kts))
    | .unionLit k v kvs => do
        .ok (.unionLit k (← norm fuel v) (← normFields (norm fuel) kvs))
    | .merge _ _ _ => .error .unimplemented
    | .field r x => do
        let r2 ← norm fuel r
        match r2 with
        | .recordLit kvs =>
            match lookupField kvs x with
            | some r3 => norm fuel r3
            | none => do
                .ok (.field (.recordLit (← normFields (norm fuel) kvs)) x)
        | r2 => .ok (.field r2 x)
    | .note _ e => norm fuel e
    | .embed a => .ok (.embed a)
    | .binOp _ _ _ => .error .unimplemented

/-- `double_quote_escaped` from parser.rs lines 351-368: convert the text
captured for an escape sequence inside a double-quoted literal.  The source
handles only seven escapes and hits `unimplemented!()` on everything else
(the commented-out `b`, `f` and `uXXXX` included). -/
def doubleQuoteEscaped (s : String) : Except Err String :=
  match s with
  | "\"" => .ok "\""
  | "$" => .ok "$"
  | "\\" => .ok "\\"
  | "/" => .ok "/"
  | "n" => .ok "\n"
  | "r" => .ok "\r"
  | "t" => .ok "\t"
  | _ => .error .unimplemented

/-- Hexadecimal digit, as in the grammar's `HEXDIG`. -/
def isHexDig (c : Char) : Bool :=
  c.isDigit || (('a' ≤ c && c ≤ 'f') || ('A' ≤ c && c ≤ 'F'))

/-- Modelled from the spec: the set of texts the Dhall grammar's
double-quote-escaped rule captures after a backslash (the grammar file is
generated from the standard ABNF, which the sources at hand do not include;
§9 records that escape handling "is partial in the source (no \uXXXX); a
conforming implementation must handle all Dhall escapes").  The standard
escapes are the single characters `"`, `$`, `\`, `/`, `b`, `f`, `n`, `r`,
`t` and `u` followed by four hex digits. -/
def grammarEscape (s : String) : Bool :=
  match s with
  | "\"" => true
  | "$" => true
  | "\\" => true
  | "/" => true
  | "b" => true
  | "f" => true
  | "n" => true
  | "r" => true
  | "t" => true
  | s =>
      match s.data with
      | 'u' :: rest => rest.length == 4 && rest.all isHexDig
      | _ => false

mutual

/-- No `Annot` and no `Note` node anywhere in the expression. -/
def noAnnotNote : Expr → Bool
  | .const _ => true
  | .var _ => true
  | .lam _ ty b => noAnnotNote ty && noAnnotNote b
  | .pi _ ty b => noAnnotNote ty && noAnnotNote b
  | .app f a => noAnnotNote f && noAnnotNote a
  | .«let» _ ty r b =>
      noAnnotNoteOpt ty && (noAnnotNote r && noAnnotNote b)
  | .annot _ _ => false
  | .builtin _ => true
  | .boolLit _ => true
  | .naturalLit _ => true
  | .integerLit _ => true
  | .doubleLit _ => true
  | .textLit t => noAnnotNoteText t
  | .binOp _ a b => noAnnotNote a && noAnnotNote b
  | .boolIf c t f => noAnnotNote c && (noAnnotNote t && noAnnotNote f)
  | .listLit ty es => noAnnotNoteOpt ty && noAnnotNoteList es
  | .optionalLit ty es => noAnnotNoteOpt ty && noAnnotNoteList es
  | .record kts => noAnnotNoteFields kts
  | .recordLit kvs => noAnnotNoteFields kvs
  | .union kts => noAnnotNoteFields kts
  | .unionLit _ v kvs => noAnnotNote v && noAnnotNoteFields kvs
  | .merge a b t => noAnnotNote a && (noAnnotNote b && noAnnotNoteOpt t)
  | .field r _ => noAnnotNote r
  | .note _ _ => false
  | .embed _ => true
termination_by structural e => e

def noAnnotNoteOpt : Option Expr → Bool
  | none => true
  | some e => noAnnotNote e
termination_by structural t => t

def noAnnotNoteList : List Expr → Bool
  | [] => true
  | e :: es => noAnnotNote e && noAnnotNoteList es
termination_by structural es => es

def noAnnotNoteFields : List (String × Expr) → Bool
  | [] => true
  | (_, v) :: kvs => noAnnotNote v && noAnnotNoteFields kvs
termination_by structural kvs => kvs

def noAnnotNoteText : List (String ⊕ Expr) → Bool
  | [] => true
  | .inl _ :: cs => noAnnotNoteText cs
  | .inr e :: cs => noAnnotNote e && noAnnotNoteText cs
termination_by structural cs => cs

end

mutual

/-- No `Annot` and no `Note` node anywhere outside text-literal
interpolation holes: like `noAnnotNote`, but a `TextLit` is accepted
whatever its holes hold (the normalizer clones text literals without
entering their holes, normalize.rs line 230). -/
def noAnnotNoteOut : Expr → Bool
  | .const _ => true
  | .var _ => true
  | .lam _ ty b => noAnnotNoteOut ty && noAnnotNoteOut b
  | .pi _ ty b => noAnnotNoteOut ty && noAnnotNoteOut b
  | .app f a => noAnnotNoteOut f && noAnnotNoteOut a
  | .«let» _ ty r b =>
      noAnnotNoteOutOpt ty && (noAnnotNoteOut r && noAnnotNoteOut b)
  | .annot _ _ => false
  | .builtin _ => true
  | .boolLit _ => true
  | .naturalLit _ => true
  | .integerLit _ => true
  | .doubleLit _ => true
  | .textLit _ => true
  | .binOp _ a b => noAnnotNoteOut a && noAnnotNoteOut b
  | .boolIf c t f =>
      noAnnotNoteOut c && (noAnnotNoteOut t && noAnnotNoteOut f)
  | .listLit ty es => noAnnotNoteOutOpt ty && noAnnotNoteOutList es
  | .optionalLit ty es => noAnnotNoteOutOpt ty && noAnnotNoteOutList es
  | .record kts => noAnnotNoteOutFields kts
  | .recordLit kvs => noAnnotNoteOutFields kvs
  | .union kts => noAnnotNoteOutFields kts
  | .unionLit _ v kvs => noAnnotNoteOut v && noAnnotNoteOutFields kvs
  | .merge a b t =>
      noAnnotNoteOut a && (noAnnotNoteOut b && noAnnotNoteOutOpt t)
  | .field r _ => noAnnotNoteOut r
  | .note _ _ => false
  | .embed _ => true
termination_by structural e => e

def noAnnotNoteOutOpt : Option Expr → Bool
  | none => true
  | some e => noAnnotNoteOut e
termination_by structural t => t

def noAnnotNoteOutList : List Expr → Bool
  | [] => true
  | e :: es => noAnnotNoteOut e && noAnnotNoteOutList es
termination_by structural es => es

def noAnnotNoteOutFields : List (String × Expr) → Bool
  | [] => true
  | (_, v) :: kvs => noAnnotNoteOut v && noAnnotNoteOutFields kvs
termination_by structural kvs => kvs

end

/-! ## Generic lemmas about the embedding -/

theorem bindOk {α β : Type} {m : Except Err α} {k : α → Except Err β}
    {r : β} (h : m >>= k = .ok r) : ∃ v, m = .ok v ∧ k v = .ok r := by
  cases m with
  | error e => simp [Bind.bind, Except.bind] at h
  | ok v => exact ⟨v, rfl, h⟩

@[simp]
theorem okBind {α β : Type} (v : α) (k : α → Except Err β) :
    (Except.ok v : Except Err α) >>= k = k v := rfl

theorem normOpt_congr {go₁ go₂ : Expr → Res}
    (hgo : ∀ e r, go₁ e = .ok r → go₂ e = .ok r) :
    ∀ {t t'}, normOpt go₁ t = .ok t' → normOpt go₂ t = .ok t' := by
  intro t t' h
  cases t with
  | none => simpa [normOpt] using h
  | some e =>
    simp only [normOpt] at h ⊢
    obtain ⟨v, hv, h2⟩ := bindOk h
    rw [hgo _ _ hv, okBind]
    exact h2

theorem normList_congr {go₁ go₂ : Expr → Res}
    (hgo : ∀ e r, go₁ e = .ok r → go₂ e = .ok r) :
    ∀ {es es'}, normList go₁ es = .ok es' → normList go₂ es = .ok es' := by
  intro es
  induction es with
  | nil => intro es' h; simpa [normList] using h
  | cons e es IH =>
    intro es' h
    simp only [normList] at h ⊢
    obtain ⟨v, hv, h2⟩ := bindOk h
    obtain ⟨vs, hvs, h3⟩ := bindOk h2
    rw [hgo _ _ hv, okBind, IH hvs, okBind]
    exact h3

theorem normFields_congr {go₁ go₂ : Expr → Res}
    (hgo : ∀ e r, go₁ e = .ok r → go₂ e = .ok r) :
    ∀ {kvs kvs'}, normFields go₁ kvs = .ok kvs' →
      normFields go₂ kvs = .ok kvs' := by
  intro kvs
  induction kvs with
  | nil => intro kvs' h; simpa [normFields] using h
  | cons p kvs IH =>
    intro kvs' h
    obtain ⟨k, v⟩ := p
    simp only [normFields] at h ⊢
    obtain ⟨w, hw, h2⟩ := bindOk h
    obtain ⟨ws, hws, h3⟩ := bindOk h2
    rw [hgo _ _ hw, okBind, IH hws, okBind]
    exact h3

theorem normApp_congr {go₁ go₂ : Expr → Res}
    (hgo : ∀ e r, go₁ e = .ok r → go₂ e = .ok r) (f2 a2 r : Expr)
    (h : normApp go₁ f2 a2 = .ok r) : normApp go₂ f2 a2 = .ok r := by
  unfold normApp at h ⊢
  cases h1 : fusionArg f2 a2 with
  | some e2 => rw [h1] at h; exact hgo _ _ h
  | none =>
  rw [h1] at h
  cases h2 : naturalRedex f2 a2 with
  | some e => rw [h2] at h; exact h
  | none =>
  rw [h2] at h
  cases h3 : listBuildArg f2 with
  | some t =>
    rw [h3] at h
    obtain ⟨L, hL, hrest⟩ := bindOk h
    show (go₂ _ >>= _) = _
    rw [hgo _ _ hL, okBind]
    exact hrest
  | none =>
  rw [h3] at h
  cases h4 : listFoldRedex f2 with
  | some p => rw [h4] at h; exact hgo _ _ h
  | none =>
  rw [h4] at h
  cases h5 : appListLitArg f2 a2 with
  | some q =>
    rw [h5] at h
    obtain ⟨f, x_, t, ys⟩ := q
    show (match f with
      | .builtin .listLength => (.ok (.naturalLit ys.length) : Res)
      | .builtin .listHead => go₂ (.optionalLit t (ys.take 1))
      | .builtin .listLast => go₂ (.optionalLit t (lastAsList ys))
      | .builtin .listReverse => go₂ (.listLit t ys.reverse)
      | _ => .ok (.app (.app f x_) (.listLit t ys))) = .ok r
    replace h : (match f with
      | .builtin .listLength => (.ok (.naturalLit ys.length) : Res)
      | .builtin .listHead => go₁ (.optionalLit t (ys.take 1))
      | .builtin .listLast => go₁ (.optionalLit t (lastAsList ys))
      | .builtin .listReverse => go₁ (.listLit t ys.reverse)
      | _ => .ok (.app (.app f x_) (.listLit t ys))) = .ok r := h
    split at h <;>
      first
        | exact h
        | exact hgo _ _ h
  | none =>
  rw [h5] at h
  cases h6 : optionalFoldRedex f2 with
  | some p => rw [h6] at h; exact hgo _ _ h
  | none =>
  rw [h6] at h
  cases h7 : optionalFusionArg f2 a2 with
  | some b => rw [h7] at h; exact hgo _ _ h
  | none =>
  rw [h7] at h
  cases h8 : optionalBuildArg f2 with
  | some a0 => rw [h8] at h; exact hgo _ _ h
  | none => rw [h8] at h; exact h

theorem norm_mono_succ :
    ∀ (f : Nat) (e r : Expr), norm f e = .ok r → norm (f + 1) e = .ok r := by
  intro f
  induction f with
  | zero => intro e r h; simp [norm] at h
  | succ f IH =>
    intro e r h
    cases e with
    | const k => exact h
    | var v => exact h
    | lam x tA b =>
      obtain ⟨tA2, h1, h'⟩ := bindOk h
      obtain ⟨b2, h2, h3⟩ := bindOk h'
      show (norm (f + 1) tA >>= _) = _
      rw [IH _ _ h1, okBind, IH _ _ h2, okBind]
      exact h3
    | pi x tA tB =>
      obtain ⟨tA2, h1, h'⟩ := bindOk h
      obtain ⟨tB2, h2, h3⟩ := bindOk h'
      show (norm (f + 1) tA >>= _) = _
      rw [IH _ _ h1, okBind, IH _ _ h2, okBind]
      exact h3
    | app fn a =>
      obtain ⟨f2, h1, h'⟩ := bindOk h
      show (norm (f + 1) fn >>= _) = _
      rw [IH _ _ h1, okBind]
      match f2, h' with
      | .lam x _A b, h' => exact IH _ _ h'
      | .const k, h' | .var v, h' | .pi x t bo, h' | .app g c, h'
      | .«let» x t rr bo, h' | .annot e2 t, h' | .builtin b, h'
      | .boolLit b, h' | .naturalLit n, h' | .integerLit n, h'
      | .doubleLit d, h' | .textLit t, h' | .binOp op a2 b2, h'
      | .boolIf c t e2, h' | .listLit t es, h' | .optionalLit t es, h'
      | .record kts, h' | .recordLit kvs, h' | .union kts, h'
      | .unionLit k v kvs, h' | .merge a2 b2 t, h' | .field r2 l, h'
      | .note s e2, h' | .embed s, h' =>
        obtain ⟨a2', h2, h3⟩ := bindOk h'
        show (norm (f + 1) a >>= _) = _
        rw [IH _ _ h2, okBind]
        exact normApp_congr IH _ _ _ h3
    | «let» x ty r' b => exact IH _ _ h
    | annot e' ty => exact IH _ _ h
    | builtin b => exact h
    | boolLit b => exact h
    | naturalLit n => exact h
    | integerLit n => exact h
    | doubleLit d => exact h
    | textLit t => exact h
    | binOp op x y =>
      cases op <;>
        first
          | (obtain ⟨xv, h1, h'⟩ := bindOk h;
             obtain ⟨yv, h2, h3⟩ := bindOk h';
             show (norm (f + 1) x >>= _) = _;
             rw [IH _ _ h1, okBind, IH _ _ h2, okBind];
             exact h3)
          | exact h
    | boolIf c t e' =>
      obtain ⟨b2, h1, h'⟩ := bindOk h
      show (norm (f + 1) c >>= _) = _
      rw [IH _ _ h1, okBind]
      match b2, h' with
      | .boolLit true, h' => exact IH _ _ h'
      | .boolLit false, h' => exact IH _ _ h'
      | .const k, h' | .var v, h' | .lam x ty bo, h' | .pi x ty bo, h'
      | .app g c2, h' | .«let» x ty rr bo, h' | .annot e2 ty, h'
      | .builtin b, h' | .naturalLit n, h' | .integerLit n, h'
      | .doubleLit d, h' | .textLit ty, h' | .binOp op a2 b3, h'
      | .boolIf c2 ty e2, h' | .listLit ty es, h' | .optionalLit ty es, h'
      | .record kts, h' | .recordLit kvs, h' | .union kts, h'
      | .unionLit k v kvs, h' | .merge a2 b3 ty, h' | .field r2 l, h'
      | .note s e2, h' | .embed s, h' =>
        obtain ⟨t2, h2, h''⟩ := bindOk h'
        obtain ⟨e2', h3, h4⟩ := bindOk h''
        show (norm (f + 1) t >>= _) = _
        rw [IH _ _ h2, okBind, IH _ _ h3, okBind]
        exact h4
    | listLit ty es =>
      obtain ⟨t2, h1, h'⟩ := bindOk h
      obtain ⟨es2, h2, h3⟩ := bindOk h'
      show (normOpt (norm (f + 1)) ty >>= _) = _
      rw [normOpt_congr IH h1, okBind, normList_congr IH h2, okBind]
      exact h3
    | optionalLit ty es =>
      obtain ⟨t2, h1, h'⟩ := bindOk h
      obtain ⟨es2, h2, h3⟩ := bindOk h'
      show (normOpt (norm (f + 1)) ty >>= _) = _
      rw [normOpt_congr IH h1, okBind, normList_congr IH h2, okBind]
      exact h3
    | record kts =>
      obtain ⟨kts2, h1, h2⟩ := bindOk h
      show (normFields (norm (f + 1)) kts >>= _) = _
      rw [normFields_congr IH h1, okBind]
      exact h2
    | recordLit kvs =>
      obtain ⟨kvs2, h1, h2⟩ := bindOk h
      show (normFields (norm (f + 1)) kvs >>= _) = _
      rw [normFields_congr IH h1, okBind]
      exact h2
    | union kts =>
      obtain ⟨kts2, h1, h2⟩ := bindOk h
      show (normFields (norm (f + 1)) kts >>= _) = _
      rw [normFields_congr IH h1, okBind]
      exact h2
    | unionLit k v kvs =>
      obtain ⟨v2, h1, h'⟩ := bindOk h
      obtain ⟨kvs2, h2, h3⟩ := bindOk h'
      show (norm (f + 1) v >>= _) = _
      rw [IH _ _ h1, okBind, normFields_congr IH h2, okBind]
      exact h3
    | merge a b t => exact absurd h (by simp [norm])
    | field r' l =>
      obtain ⟨r2, h1, h'⟩ := bindOk h
      show (norm (f + 1) r' >>= _) = _
      rw [IH _ _ h1, okBind]
      match r2, h' with
      | .recordLit kvs, h' =>
        show (match lookupField kvs l with
          | some r3 => norm (f + 1) r3
          | none => do
              .ok (.field (.recordLit (← normFields (norm (f + 1)) kvs)) l)) =
            .ok r
        replace h' : (match lookupField kvs l with
          | some r3 => norm f r3
          | none => do
              .ok (.field (.recordLit (← normFields (norm f) kvs)) l)) =
            .ok r := h'
        cases hlk : lookupField kvs l with
        | some r3 =>
          rw [hlk] at h'
          exact IH _ _ h'
        | none =>
          rw [hlk] at h'
          obtain ⟨kvs2, h2, h3⟩ := bindOk h'
          rw [normFields_congr IH h2, okBind]
          exact h3
      | .const k, h' | .var v, h' | .lam x ty bo, h' | .pi x ty bo, h'
      | .app g c2, h' | .«let» x ty rr bo, h' | .annot e2 ty, h'
      | .builtin b, h' | .boolLit b, h' | .naturalLit n, h'
      | .integerLit n, h' | .doubleLit d, h' | .textLit ty, h'
      | .binOp op a2 b3, h' | .boolIf c2 ty e2, h' | .listLit ty es, h'
      | .optionalLit ty es, h' | .record kts, h' | .union kts, h'
      | .unionLit k v kvs, h' | .merge a2 b3 ty, h' | .field r2 l2, h'
      | .note s e2, h' | .embed s, h' => exact h'
    | note s e' => exact IH _ _ h
    | embed s => exact h

/-- Fuel monotonicity: a result obtained with some fuel persists at any
larger fuel. -/
theorem norm_mono {f g : Nat} (hfg : f ≤ g) :
    ∀ {e r : Expr}, norm f e = .ok r → norm g e = .ok r := by
  induction g with
  | zero =>
    intro e r h
    cases Nat.le_zero.mp hfg
    exact h
  | succ g IH =>
    intro e r h
    rcases Nat.lt_or_ge f (g + 1) with hf | hf
    · exact norm_mono_succ g e r (IH (Nat.lt_succ_iff.mp hf) h)
    · cases Nat.le_antisymm hfg hf
      exact h

/-- Does arm 12's inner match recognise this head as one of the four `List`
built-ins it reduces? -/
def listOpHead : Expr → Bool
  | .builtin .listLength => true
  | .builtin .listHead => true
  | .builtin .listLast => true
  | .builtin .listReverse => true
  | _ => false

theorem appListLitArg_some {f2 a2 : Expr} {f x_ : Expr} {t : Option Expr}
    {ys : List Expr} (h : appListLitArg f2 a2 = some (f, x_, t, ys)) :
    f2 = .app f x_ ∧ a2 = .listLit t ys := by
  unfold appListLitArg at h
  split at h <;> simp_all

/-- When no dispatch arm applies, `normApp` returns the stuck application
`app(f2, a2)`. -/
theorem normApp_stuck (go : Expr → Res) (f2 a2 : Expr)
    (h1 : fusionArg f2 a2 = none) (h2 : naturalRedex f2 a2 = none)
    (h3 : listBuildArg f2 = none) (h4 : listFoldRedex f2 = none)
    (h5 : ∀ f x_, f2 = .app f x_ → listOpHead f = false)
    (h6 : optionalFoldRedex f2 = none) (h7 : optionalFusionArg f2 a2 = none)
    (h8 : optionalBuildArg f2 = none) :
    normApp go f2 a2 = .ok (.app f2 a2) := by
  unfold normApp
  rw [h1, h2, h3, h4]
  cases hq : appListLitArg f2 a2 with
  | some q =>
    obtain ⟨f, x_, t, ys⟩ := q
    obtain ⟨hf2, ha2⟩ := appListLitArg_some hq
    have hop := h5 f x_ hf2
    subst hf2 ha2
    show (match f with
      | .builtin .listLength => (.ok (.naturalLit ys.length) : Res)
      | .builtin .listHead => go (.optionalLit t (ys.take 1))
      | .builtin .listLast => go (.optionalLit t (lastAsList ys))
      | .builtin .listReverse => go (.listLit t ys.reverse)
      | _ => .ok (.app (.app f x_) (.listLit t ys))) = _
    split <;> simp_all [listOpHead]
  | none =>
    rw [h6, h7, h8]

theorem norm_ok_pos {f : Nat} {e r : Expr} (h : norm f e = .ok r) :
    1 ≤ f := by
  cases f with
  | zero => simp [norm] at h
  | succ f => omega

/-- `normFields` keeps every key. -/
theorem normFields_fst {go : Expr → Res} :
    ∀ {kvs kvs'}, normFields go kvs = .ok kvs' →
      kvs'.map Prod.fst = kvs.map Prod.fst := by
  intro kvs
  induction kvs with
  | nil => intro kvs' h; obtain rfl : kvs' = [] := by simpa [normFields] using h.symm
           simp
  | cons p kvs IH =>
    intro kvs' h
    obtain ⟨k, v⟩ := p
    simp only [normFields] at h
    obtain ⟨w, hw, h2⟩ := bindOk h
    obtain ⟨ws, hws, h3⟩ := bindOk h2
    obtain rfl : (k, w) :: ws = kvs' := by simpa using h3
    simp [IH hws]

/-- A failed field lookup stays failed after the values are normalized. -/
theorem lookupField_none_of_fst_eq {kvs kvs' : List (String × Expr)}
    {x : String} (hfst : kvs'.map Prod.fst = kvs.map Prod.fst)
    (h : lookupField kvs x = none) : lookupField kvs' x = none := by
  induction kvs generalizing kvs' with
  | nil =>
    cases kvs' with
    | nil => rfl
    | cons q qs => simp at hfst
  | cons p ps IH =>
    cases kvs' with
    | nil => simp at hfst
    | cons q qs =>
      obtain ⟨k, v⟩ := p
      obtain ⟨k', v'⟩ := q
      simp at hfst
      obtain ⟨hk, hrest⟩ := hfst
      rw [lookupField] at h ⊢
      rw [hk]
      split at h
      · exact absurd h (by simp)
      · split
        · simp_all
        · exact IH hrest h

/-- A fully `Cons`/`Nil` spine always flattens: the internal panic of
`list_to_vector` is unreachable once `check` has passed. -/
theorem check_listToVector : ∀ (L : Expr), check L = true →
    ∃ v, listToVector L = some v := by
  intro L
  induction L using check.induct with
  | case1 i x e2 ih =>
    intro h
    rw [check] at h
    obtain ⟨v, hv⟩ := ih h
    refine ⟨x :: v, ?_⟩
    rw [listToVector, hv]
    rfl
  | case2 => exact fun h => ⟨[], rfl⟩
  | case3 e h1 h2 =>
    intro h
    rw [check.eq_def] at h
    split at h <;> simp_all

/-! ## Self-normalization lemmas

`norm f e = ok r` says the source's normalizer, given enough recursion
depth, returns `r`; the lemmas below establish that such an `r` re-normalizes
to itself (with enough fuel), which is the idempotence invariant (I2). -/

theorem normOpt_self {f : Nat} {t t' : Option Expr}
    (IH : ∀ e r, norm f e = .ok r → ∃ g, norm g r = .ok r)
    (hp : normOpt (norm f) t = .ok t') :
    ∃ g, normOpt (norm g) t' = .ok t' := by
  cases t with
  | none =>
    obtain rfl : t' = none := by simpa [normOpt] using hp.symm
    exact ⟨0, rfl⟩
  | some e =>
    simp only [normOpt] at hp
    obtain ⟨v, hv, h2⟩ := bindOk hp
    obtain rfl : some v = t' := by simpa using h2
    obtain ⟨g, hg⟩ := IH _ _ hv
    exact ⟨g, by simp only [normOpt]; rw [hg, okBind]⟩

theorem normList_self {f : Nat} {es es' : List Expr}
    (IH : ∀ e r, norm f e = .ok r → ∃ g, norm g r = .ok r)
    (hp : normList (norm f) es = .ok es') :
    ∃ g, normList (norm g) es' = .ok es' := by
  induction es generalizing es' with
  | nil =>
    obtain rfl : es' = [] := by simpa [normList] using hp.symm
    exact ⟨0, rfl⟩
  | cons e es IHes =>
    simp only [normList] at hp
    obtain ⟨v, hv, h2⟩ := bindOk hp
    obtain ⟨vs, hvs, h3⟩ := bindOk h2
    obtain rfl : v :: vs = es' := by simpa using h3
    obtain ⟨g1, hg1⟩ := IH _ _ hv
    obtain ⟨g2, hg2⟩ := IHes hvs
    refine ⟨max g1 g2, ?_⟩
    simp only [normList]
    rw [norm_mono (le_max_left g1 g2) hg1, okBind,
      normList_congr (fun e r h => norm_mono (le_max_right g1 g2) h) hg2,
      okBind]

theorem normFields_self {f : Nat} {kvs kvs' : List (String × Expr)}
    (IH : ∀ e r, norm f e = .ok r → ∃ g, norm g r = .ok r)
    (hp : normFields (norm f) kvs = .ok kvs') :
    ∃ g, normFields (norm g) kvs' = .ok kvs' := by
  induction kvs generalizing kvs' with
  | nil =>
    obtain rfl : kvs' = [] := by simpa [normFields] using hp.symm
    exact ⟨0, rfl⟩
  | cons p kvs IHkvs =>
    obtain ⟨k, v⟩ := p
    simp only [normFields] at hp
    obtain ⟨w, hw, h2⟩ := bindOk hp
    obtain ⟨ws, hws, h3⟩ := bindOk h2
    obtain rfl : (k, w) :: ws = kvs' := by simpa using h3
    obtain ⟨g1, hg1⟩ := IH _ _ hw
    obtain ⟨g2, hg2⟩ := IHkvs hws
    refine ⟨max g1 g2, ?_⟩
    simp only [normFields]
    rw [norm_mono (le_max_left g1 g2) hg1, okBind,
      normFields_congr (fun e r h => norm_mono (le_max_right g1 g2) h) hg2,
      okBind]

theorem naturalRedex_norm {f2 a2 v : Expr} (h : naturalRedex f2 a2 = some v) :
    ∀ g, norm (g + 1) v = .ok v := by
  intro g
  unfold naturalRedex at h
  split at h <;> cases h <;> rfl

theorem listBuildArg_some {f2 t : Expr} (h : listBuildArg f2 = some t) :
    f2 = .app (.builtin .listBuild) t := by
  unfold listBuildArg at h
  split at h <;> simp_all

/-- A stuck application headed by a variable is dispatched to the stuck
case whatever the argument is. -/
theorem normApp_varHead (go : Expr → Res) (v : Var) (x2 a2 : Expr) :
    normApp go (.app (.var v) x2) a2 = .ok (.app (.app (.var v) x2) a2) := by
  unfold normApp
  rw [show fusionArg (.app (.var v) x2) a2 = none from
    by unfold fusionArg; split <;> simp_all]
  rw [show naturalRedex (.app (.var v) x2) a2 = none from
    by unfold naturalRedex; split <;> simp_all]
  rw [show listBuildArg (.app (.var v) x2) = none from rfl]
  rw [show listFoldRedex (.app (.var v) x2) = none from
    by unfold listFoldRedex; split <;> simp_all]
  cases hq : appListLitArg (.app (.var v) x2) a2 with
  | some q =>
    obtain ⟨f, x_, t, ys⟩ := q
    obtain ⟨hshape, rfl⟩ := appListLitArg_some hq
    obtain ⟨rfl, rfl⟩ : f = .var v ∧ x_ = x2 := by
      constructor <;> injection hshape <;> simp_all
    rfl
  | none =>
    rw [show optionalFoldRedex (.app (.var v) x2) = none from
      by unfold optionalFoldRedex; split <;> simp_all]
    rw [show optionalFusionArg (.app (.var v) x2) a2 = none from
      by unfold optionalFusionArg; split <;> simp_all]
    rw [show optionalBuildArg (.app (.var v) x2) = none from rfl]

theorem fusionArg_builtin {b : Builtin} (a2 : Expr)
    (hb1 : b ≠ .naturalBuild) (hb2 : b ≠ .naturalFold) :
    fusionArg (.builtin b) a2 = none := by
  unfold fusionArg
  split <;> simp_all

theorem naturalRedex_none_builtin {b : Builtin} (a2 : Expr)
    (hb : ∀ n : Nat, a2 ≠ .naturalLit n) :
    naturalRedex (.builtin b) a2 = none := by
  unfold naturalRedex
  split <;> simp_all

theorem naturalRedex_none_app (u v a2 : Expr) :
    naturalRedex (.app u v) a2 = none := by
  unfold naturalRedex
  split <;> simp_all

theorem optionalFusionArg_builtin (b : Builtin) (a2 : Expr) :
    optionalFusionArg (.builtin b) a2 = none := by
  unfold optionalFusionArg
  split <;> simp_all

/-- For a builtin head that the `Natural` arms and fusion do not recognise,
the dispatch is stuck whatever the argument is. -/
theorem normApp_builtinHead_stuck (go : Expr → Res) (b : Builtin) (a2 : Expr)
    (hb1 : b ≠ .naturalBuild) (hb2 : b ≠ .naturalFold)
    (hb3 : naturalRedex (.builtin b) a2 = none) :
    normApp go (.builtin b) a2 = .ok (.app (.builtin b) a2) :=
  normApp_stuck go (.builtin b) a2 (fusionArg_builtin a2 hb1 hb2) hb3
    rfl rfl (fun f x_ hfx => by cases hfx) rfl
    (optionalFusionArg_builtin b a2) rfl

/-- Inverting self-normalization of `App(Builtin(ListBuild), t)`: the
element type is itself self-normalizing. -/
theorem selfNorm_listBuild_ty {t : Expr}
    (h : ∃ g, norm g (.app (.builtin .listBuild) t) =
      .ok (.app (.builtin .listBuild) t)) :
    ∃ g, norm g t = .ok t := by
  obtain ⟨g, hg⟩ := h
  obtain ⟨g, rfl⟩ : ∃ g', g = g' + 1 :=
    ⟨g - 1, by have := norm_ok_pos hg; omega⟩
  obtain ⟨w, hw, h2⟩ := bindOk hg
  obtain ⟨g, rfl⟩ : ∃ g', g = g' + 1 :=
    ⟨g - 1, by have := norm_ok_pos hw; omega⟩
  obtain rfl : Expr.builtin .listBuild = w := by injection hw
  obtain ⟨t2, ht2, h3⟩ := bindOk h2
  rw [normApp_builtinHead_stuck (norm (g + 1)) .listBuild t2
    (by simp) (by simp)
    (by unfold naturalRedex; split <;> simp_all)] at h3
  obtain rfl : t2 = t := by simpa using h3
  exact ⟨g + 1, ht2⟩

/-- A bare variable head is dispatched to the stuck case whatever the
argument is. -/
theorem normApp_bareVar (go : Expr → Res) (v : Var) (a2 : Expr) :
    normApp go (.var v) a2 = .ok (.app (.var v) a2) :=
  normApp_stuck go (.var v) a2
    (by unfold fusionArg; split <;> simp_all)
    (by unfold naturalRedex; split <;> simp_all)
    rfl rfl (fun f x_ hfx => by cases hfx) rfl
    (by unfold optionalFusionArg; split <;> simp_all)
    rfl

/-- Inverting self-normalization of a `Cons` spine cell: the element and
the tail are themselves self-normalizing. -/
theorem selfNorm_cons_inv {i : Nat} {x L2 : Expr}
    (h : ∃ g, norm g (.app (.app (.var ⟨"Cons", i⟩) x) L2) =
      .ok (.app (.app (.var ⟨"Cons", i⟩) x) L2)) :
    (∃ g, norm g x = .ok x) ∧ (∃ g, norm g L2 = .ok L2) := by
  obtain ⟨g, hg⟩ := h
  obtain ⟨G, rfl⟩ : ∃ G, g = G + 1 :=
    ⟨g - 1, by have := norm_ok_pos hg; omega⟩
  obtain ⟨u1, hu1, h2⟩ := bindOk hg
  obtain ⟨H, rfl⟩ : ∃ H, G = H + 1 :=
    ⟨G - 1, by have := norm_ok_pos hu1; omega⟩
  obtain ⟨w, hw, h3⟩ := bindOk hu1
  obtain ⟨K, rfl⟩ : ∃ K, H = K + 1 :=
    ⟨H - 1, by have := norm_ok_pos hw; omega⟩
  obtain rfl : Expr.var ⟨"Cons", i⟩ = w := by injection hw
  obtain ⟨x2, hx2, h4⟩ := bindOk h3
  rw [normApp_bareVar] at h4
  obtain rfl : u1 = .app (.var ⟨"Cons", i⟩) x2 := by simpa using h4.symm
  obtain ⟨L2', hL2', h5⟩ := bindOk h2
  rw [normApp_varHead] at h5
  injection h5 with h6
  injection h6 with h7 h8
  injection h7 with h9 h10
  subst h8 h10
  exact ⟨⟨K + 1, hx2⟩, ⟨K + 2, hL2'⟩⟩

/-- Every element of a flattened `Cons`/`Nil` spine of a self-normalizing
expression is self-normalizing. -/
theorem listToVector_selfNorm : ∀ (L : Expr) (v : List Expr),
    listToVector L = some v → (∃ g, norm g L = .ok L) →
    ∃ g, normList (norm g) v = .ok v := by
  intro L
  induction L using listToVector.induct with
  | case1 i x e2 ih =>
    intro v hv hL
    rw [listToVector] at hv
    cases hlv : listToVector e2 with
    | none => rw [hlv] at hv; cases hv
    | some v2 =>
      rw [hlv] at hv
      obtain rfl : x :: v2 = v := by simpa using hv
      obtain ⟨hx, hL2⟩ := selfNorm_cons_inv hL
      obtain ⟨g2, hg2⟩ := ih v2 hlv hL2
      obtain ⟨g1, hg1⟩ := hx
      refine ⟨max g1 g2, ?_⟩
      simp only [normList]
      rw [norm_mono (le_max_left g1 g2) hg1, okBind,
        normList_congr (fun e r h => norm_mono (le_max_right g1 g2) h) hg2,
        okBind]
  | case2 i =>
    intro v hv hL
    obtain rfl : ([] : List Expr) = v := by simpa [listToVector] using hv
    exact ⟨0, rfl⟩
  | case3 e h1 h2 =>
    intro v hv hL
    rw [listToVector.eq_def] at hv
    split at hv <;> simp_all

/-- Replaying a stuck application: if both sides are self-normalizing and
the pair dispatched to some result `r` once, the application normalizes to
`r` again (with enough fuel). -/
theorem selfNorm_app {f : Nat} {f2 a2 r : Expr}
    (hnl : ∀ x t b, f2 ≠ .lam x t b)
    (hf2 : ∃ g, norm g f2 = .ok f2) (ha2 : ∃ g, norm g a2 = .ok a2)
    (h3 : normApp (norm f) f2 a2 = .ok r) :
    ∃ g, norm g (.app f2 a2) = .ok r := by
  obtain ⟨g1, hg1⟩ := hf2
  obtain ⟨g2, hg2⟩ := ha2
  refine ⟨max (max g1 g2) f + 1, ?_⟩
  show (norm (max (max g1 g2) f) f2 >>= _) = _
  rw [norm_mono (by omega) hg1, okBind]
  cases f2 <;>
    first
      | exact absurd rfl (hnl _ _ _)
      | (show (norm (max (max g1 g2) f) a2 >>= _) = _;
         rw [norm_mono (by omega) hg2, okBind];
         exact normApp_congr (fun e r h => norm_mono (by omega) h) _ _ _ h3)

/-- The result of the application dispatch is self-normalizing. -/
theorem normApp_selfNorm (f : Nat)
    (IH : ∀ e r, norm f e = .ok r → ∃ g, norm g r = .ok r)
    (f2 a2 r : Expr) (hnl : ∀ x t b, f2 ≠ .lam x t b)
    (hf2 : ∃ g, norm g f2 = .ok f2) (ha2 : ∃ g, norm g a2 = .ok a2)
    (h3 : normApp (norm f) f2 a2 = .ok r) :
    ∃ g, norm g r = .ok r := by
  have h3dup := h3
  unfold normApp at h3
  cases hs1 : fusionArg f2 a2 with
  | some e2 => rw [hs1] at h3; exact IH _ _ h3
  | none =>
  rw [hs1] at h3
  cases hs2 : naturalRedex f2 a2 with
  | some v =>
    rw [hs2] at h3
    obtain rfl : v = r := by injection h3
    exact ⟨1, naturalRedex_norm hs2 0⟩
  | none =>
  rw [hs2] at h3
  cases hs3 : listBuildArg f2 with
  | some t =>
    rw [hs3] at h3
    obtain rfl := listBuildArg_some hs3
    obtain ⟨L, hL, hbody⟩ := bindOk h3
    have hLs : ∃ g, norm g L = .ok L := IH _ _ hL
    by_cases hc : check L = true
    · rw [if_pos hc] at hbody
      obtain ⟨v, hv⟩ := check_listToVector L hc
      rw [hv] at hbody
      obtain rfl : Expr.listLit (some t) v = r := by injection hbody
      obtain ⟨gt, hgt⟩ := selfNorm_listBuild_ty hf2
      obtain ⟨gv, hgv⟩ := listToVector_selfNorm L v hv hLs
      refine ⟨max gt gv + 1, ?_⟩
      show (normOpt (norm (max gt gv)) (some t) >>= _) = _
      have hopt : normOpt (norm (max gt gv)) (some t) = .ok (some t) := by
        simp only [normOpt]
        rw [norm_mono (le_max_left _ _) hgt, okBind]
      have hlist : normList (norm (max gt gv)) v = .ok v :=
        normList_congr (fun e r h => norm_mono (le_max_right _ _) h) hgv
      rw [hopt, okBind, hlist, okBind]
    · rw [if_neg hc] at hbody
      obtain rfl : Expr.app (.app (.builtin .listBuild) t) a2 = r := by
        injection hbody
      exact selfNorm_app hnl hf2 ha2 h3dup
  | none =>
  rw [hs3] at h3
  cases hs4 : listFoldRedex f2 with
  | some p => rw [hs4] at h3; obtain ⟨xs, consF⟩ := p; exact IH _ _ h3
  | none =>
  rw [hs4] at h3
  cases hs5 : appListLitArg f2 a2 with
  | some q =>
    rw [hs5] at h3
    obtain ⟨fi, x_, t, ys⟩ := q
    obtain ⟨rfl, rfl⟩ := appListLitArg_some hs5
    replace h3 : (match fi with
      | .builtin .listLength => (.ok (.naturalLit ys.length) : Res)
      | .builtin .listHead => norm f (.optionalLit t (ys.take 1))
      | .builtin .listLast => norm f (.optionalLit t (lastAsList ys))
      | .builtin .listReverse => norm f (.listLit t ys.reverse)
      | _ => .ok (.app (.app fi x_) (.listLit t ys))) = .ok r := h3
    split at h3
    · obtain rfl : Expr.naturalLit ys.length = r := by injection h3
      exact ⟨1, rfl⟩
    · exact IH _ _ h3
    · exact IH _ _ h3
    · exact IH _ _ h3
    · obtain rfl : Expr.app (.app fi x_) (.listLit t ys) = r := by
        injection h3
      exact selfNorm_app hnl hf2 ha2 h3dup
  | none =>
  rw [hs5] at h3
  cases hs6 : optionalFoldRedex f2 with
  | some p => rw [hs6] at h3; obtain ⟨xs, just⟩ := p; exact IH _ _ h3
  | none =>
  rw [hs6] at h3
  cases hs7 : optionalFusionArg f2 a2 with
  | some b => rw [hs7] at h3; exact IH _ _ h3
  | none =>
  rw [hs7] at h3
  cases hs8 : optionalBuildArg f2 with
  | some a0 => rw [hs8] at h3; exact IH _ _ h3
  | none =>
    rw [hs8] at h3
    obtain rfl : Expr.app f2 a2 = r := by injection h3
    exact selfNorm_app hnl hf2 ha2 h3dup

/-- Replaying a preserved binary operator node. -/
theorem withBinop_selfNorm {U : Type} {op : BinOp} {get : Expr → Option U}
    {set : U → U → Expr} {xv yv : Expr}
    (hg1 : ∃ g, norm g xv = .ok xv) (hg2 : ∃ g, norm g yv = .ok yv)
    (hset : ∀ a b, norm 1 (set a b) = .ok (set a b))
    (hbin : ∀ (g : Nat) (x y : Expr), norm (g + 1) (.binOp op x y) =
      (do .ok (withBinop op get set (← norm g x) (← norm g y)))) :
    ∃ g, norm g (withBinop op get set xv yv) =
      .ok (withBinop op get set xv yv) := by
  obtain ⟨g1, h1⟩ := hg1
  obtain ⟨g2, h2⟩ := hg2
  unfold withBinop
  cases hgx : get xv with
  | some a =>
    cases hgy : get yv with
    | some b => exact ⟨1, hset a b⟩
    | none =>
      refine ⟨max g1 g2 + 1, ?_⟩
      rw [hbin, norm_mono (le_max_left _ _) h1, okBind,
        norm_mono (le_max_right _ _) h2, okBind]
      unfold withBinop
      rw [hgx, hgy]
  | none =>
    cases hgy : get yv with
    | some b =>
      refine ⟨max g1 g2 + 1, ?_⟩
      rw [hbin, norm_mono (le_max_left _ _) h1, okBind,
        norm_mono (le_max_right _ _) h2, okBind]
      unfold withBinop
      rw [hgx, hgy]
    | none =>
      refine ⟨max g1 g2 + 1, ?_⟩
      rw [hbin, norm_mono (le_max_left _ _) h1, okBind,
        norm_mono (le_max_right _ _) h2, okBind]
      unfold withBinop
      rw [hgx, hgy]

/-- Every `ok` output of the normalizer is self-normalizing: renormalizing
it (with enough fuel) returns it unchanged. -/
theorem norm_idem : ∀ (f : Nat) (e r : Expr), norm f e = .ok r →
    ∃ g, norm g r = .ok r := by
  intro f
  induction f with
  | zero => intro e r h; simp [norm] at h
  | succ f IH =>
    intro e r h
    cases e with
    | const k =>
      obtain rfl : Expr.const k = r := by injection h
      exact ⟨1, rfl⟩
    | var v =>
      obtain rfl : Expr.var v = r := by injection h
      exact ⟨1, rfl⟩
    | lam x tA b =>
      obtain ⟨tA2, h1, h'⟩ := bindOk h
      obtain ⟨b2, h2, h3⟩ := bindOk h'
      obtain rfl : Expr.lam x tA2 b2 = r := by injection h3
      obtain ⟨g1, hg1⟩ := IH _ _ h1
      obtain ⟨g2, hg2⟩ := IH _ _ h2
      refine ⟨max g1 g2 + 1, ?_⟩
      show (norm (max g1 g2) tA2 >>= _) = _
      rw [norm_mono (le_max_left _ _) hg1, okBind,
        norm_mono (le_max_right _ _) hg2, okBind]
    | pi x tA tB =>
      obtain ⟨tA2, h1, h'⟩ := bindOk h
      obtain ⟨tB2, h2, h3⟩ := bindOk h'
      obtain rfl : Expr.pi x tA2 tB2 = r := by injection h3
      obtain ⟨g1, hg1⟩ := IH _ _ h1
      obtain ⟨g2, hg2⟩ := IH _ _ h2
      refine ⟨max g1 g2 + 1, ?_⟩
      show (norm (max g1 g2) tA2 >>= _) = _
      rw [norm_mono (le_max_left _ _) hg1, okBind,
        norm_mono (le_max_right _ _) hg2, okBind]
    | app fn a =>
      obtain ⟨f2, h1, h'⟩ := bindOk h
      have hf2 := IH _ _ h1
      match f2, h', hf2 with
      | .lam x _A b, h', _ => exact IH _ _ h'
      | .const k, h', hf2 | .var v, h', hf2 | .pi x t bo, h', hf2
      | .app g c, h', hf2 | .«let» x t rr bo, h', hf2
      | .annot e2 t, h', hf2 | .builtin b, h', hf2 | .boolLit b, h', hf2
      | .naturalLit n, h', hf2 | .integerLit n, h', hf2
      | .doubleLit d, h', hf2 | .textLit t, h', hf2
      | .binOp op a2 b2, h', hf2 | .boolIf c t e2, h', hf2
      | .listLit t es, h', hf2 | .optionalLit t es, h', hf2
      | .record kts, h', hf2 | .recordLit kvs, h', hf2
      | .union kts, h', hf2 | .unionLit k v kvs, h', hf2
      | .merge a2 b2 t, h', hf2 | .field r2 l, h', hf2
      | .note s e2, h', hf2 | .embed s, h', hf2 =>
        obtain ⟨a2', h2, h3⟩ := bindOk h'
        exact normApp_selfNorm f IH _ _ _ (by intro x t b hx; cases hx)
          hf2 (IH _ _ h2) h3
    | «let» x ty r' b => exact IH _ _ h
    | annot e' ty => exact IH _ _ h
    | builtin b =>
      obtain rfl : Expr.builtin b = r := by injection h
      exact ⟨1, rfl⟩
    | boolLit b =>
      obtain rfl : Expr.boolLit b = r := by injection h
      exact ⟨1, rfl⟩
    | naturalLit n =>
      obtain rfl : Expr.naturalLit n = r := by injection h
      exact ⟨1, rfl⟩
    | integerLit n =>
      obtain rfl : Expr.integerLit n = r := by injection h
      exact ⟨1, rfl⟩
    | doubleLit d =>
      obtain rfl : Expr.doubleLit d = r := by injection h
      exact ⟨1, rfl⟩
    | textLit t =>
      obtain rfl : Expr.textLit t = r := by injection h
      exact ⟨1, rfl⟩
    | binOp op x y =>
      cases op <;>
        first
          | (obtain ⟨xv, h1, h'⟩ := bindOk h;
             obtain ⟨yv, h2, h3⟩ := bindOk h';
             obtain rfl := (Except.ok.inj h3).symm;
             exact withBinop_selfNorm (IH _ _ h1) (IH _ _ h2)
               (fun a b => rfl) (fun g x y => rfl))
          | simp [norm] at h
    | boolIf c t e' =>
      obtain ⟨b2, h1, h'⟩ := bindOk h
      have hb2 := IH _ _ h1
      match b2, h', hb2 with
      | .boolLit true, h', _ => exact IH _ _ h'
      | .boolLit false, h', _ => exact IH _ _ h'
      | .const k, h', hb2 | .var v, h', hb2 | .lam x ty bo, h', hb2
      | .pi x ty bo, h', hb2 | .app g c2, h', hb2
      | .«let» x ty rr bo, h', hb2 | .annot e2 ty, h', hb2
      | .builtin b, h', hb2 | .naturalLit n, h', hb2
      | .integerLit n, h', hb2 | .doubleLit d, h', hb2
      | .textLit ty, h', hb2 | .binOp op a2 b3, h', hb2
      | .boolIf c2 ty e2, h', hb2 | .listLit ty es, h', hb2
      | .optionalLit ty es, h', hb2 | .record kts, h', hb2
      | .recordLit kvs, h', hb2 | .union kts, h', hb2
      | .unionLit k v kvs, h', hb2 | .merge a2 b3 ty, h', hb2
      | .field r2 l, h', hb2 | .note s e2, h', hb2 | .embed s, h', hb2 =>
        obtain ⟨t2, h2, h''⟩ := bindOk h'
        obtain ⟨e2', h3, h4⟩ := bindOk h''
        obtain rfl := (Except.ok.inj h4)
        obtain ⟨g0, hg0⟩ := hb2
        obtain ⟨g1, hg1⟩ := IH _ _ h2
        obtain ⟨g2, hg2⟩ := IH _ _ h3
        refine ⟨max g0 (max g1 g2) + 1, ?_⟩
        show (norm (max g0 (max g1 g2)) _ >>= _) = _
        rw [norm_mono (by omega) hg0, okBind]
        show (norm (max g0 (max g1 g2)) t2 >>= _) = _
        rw [norm_mono (by omega) hg1, okBind,
          norm_mono (by omega) hg2, okBind]
    | listLit ty es =>
      obtain ⟨t2, h1, h'⟩ := bindOk h
      obtain ⟨es2, h2, h3⟩ := bindOk h'
      obtain rfl : Expr.listLit t2 es2 = r := by injection h3
      obtain ⟨g1, hg1⟩ := normOpt_self IH h1
      obtain ⟨g2, hg2⟩ := normList_self IH h2
      refine ⟨max g1 g2 + 1, ?_⟩
      show (normOpt (norm (max g1 g2)) t2 >>= _) = _
      rw [normOpt_congr (fun e r h => norm_mono (le_max_left _ _) h) hg1,
        okBind,
        normList_congr (fun e r h => norm_mono (le_max_right _ _) h) hg2,
        okBind]
    | optionalLit ty es =>
      obtain ⟨t2, h1, h'⟩ := bindOk h
      obtain ⟨es2, h2, h3⟩ := bindOk h'
      obtain rfl : Expr.optionalLit t2 es2 = r := by injection h3
      obtain ⟨g1, hg1⟩ := normOpt_self IH h1
      obtain ⟨g2, hg2⟩ := normList_self IH h2
      refine ⟨max g1 g2 + 1, ?_⟩
      show (normOpt (norm (max g1 g2)) t2 >>= _) = _
      rw [normOpt_congr (fun e r h => norm_mono (le_max_left _ _) h) hg1,
        okBind,
        normList_congr (fun e r h => norm_mono (le_max_right _ _) h) hg2,
        okBind]
    | record kts =>
      obtain ⟨kts2, h1, h2⟩ := bindOk h
      obtain rfl : Expr.record kts2 = r := by injection h2
      obtain ⟨g1, hg1⟩ := normFields_self IH h1
      refine ⟨g1 + 1, ?_⟩
      show (normFields (norm g1) kts2 >>= _) = _
      rw [hg1, okBind]
    | recordLit kvs =>
      obtain ⟨kvs2, h1, h2⟩ := bindOk h
      obtain rfl : Expr.recordLit kvs2 = r := by injection h2
      obtain ⟨g1, hg1⟩ := normFields_self IH h1
      refine ⟨g1 + 1, ?_⟩
      show (normFields (norm g1) kvs2 >>= _) = _
      rw [hg1, okBind]
    | union kts =>
      obtain ⟨kts2, h1, h2⟩ := bindOk h
      obtain rfl : Expr.union kts2 = r := by injection h2
      obtain ⟨g1, hg1⟩ := normFields_self IH h1
      refine ⟨g1 + 1, ?_⟩
      show (normFields (norm g1) kts2 >>= _) = _
      rw [hg1, okBind]
    | unionLit k v kvs =>
      obtain ⟨v2, h1, h'⟩ := bindOk h
      obtain ⟨kvs2, h2, h3⟩ := bindOk h'
      obtain rfl : Expr.unionLit k v2 kvs2 = r := by injection h3
      obtain ⟨g1, hg1⟩ := IH _ _ h1
      obtain ⟨g2, hg2⟩ := normFields_self IH h2
      refine ⟨max g1 g2 + 1, ?_⟩
      show (norm (max g1 g2) v2 >>= _) = _
      rw [norm_mono (le_max_left _ _) hg1, okBind,
        normFields_congr (fun e r h => norm_mono (le_max_right _ _) h) hg2,
        okBind]
    | merge a b t => simp [norm] at h
    | field r' l =>
      obtain ⟨r2, h1, h'⟩ := bindOk h
      have hr2 := IH _ _ h1
      match r2, h', hr2 with
      | .recordLit kvs, h', hr2 =>
        replace h' : (match lookupField kvs l with
          | some r3 => norm f r3
          | none => do
              .ok (.field (.recordLit (← normFields (norm f) kvs)) l)) =
            .ok r := h'
        cases hlk : lookupField kvs l with
        | some r3 =>
          rw [hlk] at h'
          exact IH _ _ h'
        | none =>
          rw [hlk] at h'
          obtain ⟨kvs2, h2, h3⟩ := bindOk h'
          obtain rfl : Expr.field (.recordLit kvs2) l = r := by injection h3
          obtain ⟨g2, hg2⟩ := normFields_self IH h2
          have hlk2 : lookupField kvs2 l = none :=
            lookupField_none_of_fst_eq (normFields_fst h2) hlk
          refine ⟨g2 + 1 + 1, ?_⟩
          show (norm (g2 + 1) (.recordLit kvs2) >>= _) = _
          have hrec : norm (g2 + 1) (.recordLit kvs2) =
              .ok (.recordLit kvs2) := by
            show (normFields (norm g2) kvs2 >>= _) = _
            rw [hg2, okBind]
          rw [hrec, okBind]
          show (match lookupField kvs2 l with
            | some r3 => norm (g2 + 1) r3
            | none => do
                .ok (.field (.recordLit
                  (← normFields (norm (g2 + 1)) kvs2)) l)) = _
          rw [hlk2]
          show (normFields (norm (g2 + 1)) kvs2 >>= _) = _
          rw [normFields_congr (fun e r h => norm_mono (Nat.le_succ _) h)
            hg2, okBind]
      | .const k, h', hr2 | .var v, h', hr2 | .lam x ty bo, h', hr2
      | .pi x ty bo, h', hr2 | .app g c2, h', hr2
      | .«let» x ty rr bo, h', hr2 | .annot e2 ty, h', hr2
      | .builtin b, h', hr2 | .boolLit b, h', hr2
      | .naturalLit n, h', hr2 | .integerLit n, h', hr2
      | .doubleLit d, h', hr2 | .textLit ty, h', hr2
      | .binOp op a2 b3, h', hr2 | .boolIf c2 ty e2, h', hr2
      | .listLit ty es, h', hr2 | .optionalLit ty es, h', hr2
      | .record kts, h', hr2 | .union kts, h', hr2
      | .unionLit k v kvs, h', hr2 | .merge a2 b3 ty, h', hr2
      | .field r3 l2, h', hr2 | .note s e2, h', hr2 | .embed s, h', hr2 =>
        obtain rfl := (Except.ok.inj h')
        obtain ⟨g1, hg1⟩ := hr2
        refine ⟨g1 + 1, ?_⟩
        show (norm g1 _ >>= _) = _
        rw [hg1, okBind]
    | note s e' => exact IH _ _ h
    | embed s =>
      obtain rfl : Expr.embed s = r := by injection h
      exact ⟨1, rfl⟩

/-! ## Claim C7 -/

/-- C7: normalization is idempotent — whenever `normalize(e)` returns `r`
(that is, `norm` returns `r` at some recursion depth), renormalizing `r`
returns `r` again (at every sufficient depth).  This is proved for every
expression, closed or not, which subsumes the claim's restriction to closed
expressions. -/
theorem normalize_idempotent (f : Nat) (e r : Expr)
    (h : norm f e = .ok r) :
    ∃ g, ∀ g', g ≤ g' → norm g' r = .ok r := by
  obtain ⟨g, hg⟩ := norm_idem f e r h
  exact ⟨g, fun g' hle => norm_mono hle hg⟩

/-- C7 witness: the closed expression `1 + 2` normalizes to `3`, and `3`
renormalizes to itself. -/
theorem normalize_idempotent_witness :
    ∃ g, ∀ g', g ≤ g' → norm g' (.naturalLit 3) = .ok (.naturalLit 3) :=
  normalize_idempotent 2
    (.binOp .naturalPlus (.naturalLit 1) (.naturalLit 2))
    (.naturalLit 3) rfl

theorem norm_builtin_succ (K : Nat) (b : Builtin) :
    norm (K + 1) (.builtin b) = .ok (.builtin b) := rfl

theorem naturalRedex_none_bltn {b : Builtin} (a2 : Expr)
    (h1 : b ≠ .naturalIsZero) (h2 : b ≠ .naturalEven)
    (h3 : b ≠ .naturalOdd) (h4 : b ≠ .naturalToInteger)
    (h5 : b ≠ .naturalShow) :
    naturalRedex (.builtin b) a2 = none := by
  unfold naturalRedex
  split <;> simp_all

theorem fusionArg_none_app {u v : Expr} (a2 : Expr)
    (h1 : u ≠ .builtin .listBuild) (h2 : u ≠ .builtin .listFold) :
    fusionArg (.app u v) a2 = none := by
  unfold fusionArg
  split <;> simp_all

theorem optionalFusionArg_none_app {u v : Expr} (a2 : Expr)
    (h : u ≠ .builtin .optionalBuild) :
    optionalFusionArg (.app u v) a2 = none := by
  unfold optionalFusionArg
  split <;> simp_all

theorem listBuildArg_none_app {u v : Expr} (h : u ≠ .builtin .listBuild) :
    listBuildArg (.app u v) = none := by
  unfold listBuildArg
  split <;> simp_all

theorem optionalBuildArg_none_app {u v : Expr}
    (h : u ≠ .builtin .optionalBuild) :
    optionalBuildArg (.app u v) = none := by
  unfold optionalBuildArg
  split <;> simp_all

/-- `List/build _ (List/fold _ e)` fuses to `normalize(e)`, provided the
inner pair is not itself first fused away. -/
theorem fusion_list_build_fold (f : Nat) (A B e A' B' e' : Expr)
    (hf : 1 ≤ f) (hA : norm f A = .ok A') (hB : norm f B = .ok B')
    (he : norm f e = .ok e')
    (hfu2 : fusionArg (.app (.builtin .listFold) B') e' = none) :
    ∃ F, ∀ G, F ≤ G →
      norm G (.app (.app (.builtin .listBuild) A)
        (.app (.app (.builtin .listFold) B) e)) = .ok e' := by
  obtain ⟨gs, hgs⟩ := norm_idem f e e' he
  refine ⟨max f gs + 4, ?_⟩
  intro G hG
  obtain ⟨K1, rfl⟩ : ∃ K1, G = K1 + 4 := ⟨G - 4, by omega⟩
  have hfn : norm (K1 + 3) (.app (.builtin .listBuild) A) =
      .ok (.app (.builtin .listBuild) A') := by
    show (norm (K1 + 2) (.builtin .listBuild) >>= _) = _
    rw [norm_builtin_succ, okBind]
    show (norm (K1 + 2) A >>= _) = _
    rw [norm_mono (by omega) hA, okBind]
    exact normApp_builtinHead_stuck _ .listBuild A' (by simp) (by simp)
      (naturalRedex_none_bltn A' (by simp) (by simp) (by simp) (by simp)
        (by simp))
  have hLF : norm (K1 + 2) (.app (.builtin .listFold) B) =
      .ok (.app (.builtin .listFold) B') := by
    show (norm (K1 + 1) (.builtin .listFold) >>= _) = _
    rw [norm_builtin_succ, okBind]
    show (norm (K1 + 1) B >>= _) = _
    rw [norm_mono (by omega) hB, okBind]
    exact normApp_builtinHead_stuck _ .listFold B' (by simp) (by simp)
      (naturalRedex_none_bltn B' (by simp) (by simp) (by simp) (by simp)
        (by simp))
  have hfold : norm (K1 + 3) (.app (.app (.builtin .listFold) B) e) =
      .ok (.app (.app (.builtin .listFold) B') e') := by
    show (norm (K1 + 2) (.app (.builtin .listFold) B) >>= _) = _
    rw [hLF, okBind]
    show (norm (K1 + 2) e >>= _) = _
    rw [norm_mono (by omega) he, okBind]
    exact normApp_stuck _ _ _ hfu2 (naturalRedex_none_app _ _ _)
      (listBuildArg_none_app (by simp)) rfl
      (by intro fi x_ hfx; cases hfx; rfl) rfl
      (optionalFusionArg_none_app _ (by simp))
      (optionalBuildArg_none_app (by simp))
  show (norm (K1 + 3) (.app (.builtin .listBuild) A) >>= _) = _
  rw [hfn, okBind]
  show (norm (K1 + 3) (.app (.app (.builtin .listFold) B) e) >>= _) = _
  rw [hfold, okBind]
  unfold normApp
  rw [show fusionArg (.app (.builtin .listBuild) A')
    (.app (.app (.builtin .listFold) B') e') = some e' from rfl]
  exact norm_mono (by omega) hgs

/-- `Natural/build (Natural/fold e)` fuses to `normalize(e)`. -/
theorem fusion_nat_build_fold (f : Nat) (e e' : Expr) (hf : 1 ≤ f)
    (he : norm f e = .ok e')
    (hfu2 : fusionArg (.builtin .naturalFold) e' = none) :
    ∃ F, ∀ G, F ≤ G →
      norm G (.app (.builtin .naturalBuild)
        (.app (.builtin .naturalFold) e)) = .ok e' := by
  obtain ⟨gs, hgs⟩ := norm_idem f e e' he
  refine ⟨max f gs + 3, ?_⟩
  intro G hG
  obtain ⟨K1, rfl⟩ : ∃ K1, G = K1 + 3 := ⟨G - 3, by omega⟩
  have hNF : norm (K1 + 2) (.app (.builtin .naturalFold) e) =
      .ok (.app (.builtin .naturalFold) e') := by
    show (norm (K1 + 1) (.builtin .naturalFold) >>= _) = _
    rw [norm_builtin_succ, okBind]
    show (norm (K1 + 1) e >>= _) = _
    rw [norm_mono (by omega) he, okBind]
    exact normApp_stuck _ _ _ hfu2
      (naturalRedex_none_bltn e' (by simp) (by simp) (by simp) (by simp)
        (by simp))
      rfl rfl (by intro fi x_ hfx; cases hfx) rfl
      (optionalFusionArg_builtin _ _) rfl
  show (norm (K1 + 2) (.builtin .naturalBuild) >>= _) = _
  rw [norm_builtin_succ, okBind]
  show (norm (K1 + 2) (.app (.builtin .naturalFold) e) >>= _) = _
  rw [hNF, okBind]
  show normApp _ _ _ = _
  rw [show normApp (norm (K1 + 2)) (.builtin .naturalBuild)
    (.app (.builtin .naturalFold) e') = norm (K1 + 2) e' from rfl]
  exact norm_mono (by omega) hgs

/-- `Natural/fold (Natural/build e)` fuses to `normalize(e)`. -/
theorem fusion_nat_fold_build (f : Nat) (e e' : Expr) (hf : 1 ≤ f)
    (he : norm f e = .ok e')
    (hfu2 : fusionArg (.builtin .naturalBuild) e' = none) :
    ∃ F, ∀ G, F ≤ G →
      norm G (.app (.builtin .naturalFold)
        (.app (.builtin .naturalBuild) e)) = .ok e' := by
  obtain ⟨gs, hgs⟩ := norm_idem f e e' he
  refine ⟨max f gs + 3, ?_⟩
  intro G hG
  obtain ⟨K1, rfl⟩ : ∃ K1, G = K1 + 3 := ⟨G - 3, by omega⟩
  have hNB : norm (K1 + 2) (.app (.builtin .naturalBuild) e) =
      .ok (.app (.builtin .naturalBuild) e') := by
    show (norm (K1 + 1) (.builtin .naturalBuild) >>= _) = _
    rw [norm_builtin_succ, okBind]
    show (norm (K1 + 1) e >>= _) = _
    rw [norm_mono (by omega) he, okBind]
    exact normApp_stuck _ _ _ hfu2
      (naturalRedex_none_bltn e' (by simp) (by simp) (by simp) (by simp)
        (by simp))
      rfl rfl (by intro fi x_ hfx; cases hfx) rfl
      (optionalFusionArg_builtin _ _) rfl
  show (norm (K1 + 2) (.builtin .naturalFold) >>= _) = _
  rw [norm_builtin_succ, okBind]
  show (norm (K1 + 2) (.app (.builtin .naturalBuild) e) >>= _) = _
  rw [hNB, okBind]
  show normApp _ _ _ = _
  rw [show normApp (norm (K1 + 2)) (.builtin .naturalFold)
    (.app (.builtin .naturalBuild) e') = norm (K1 + 2) e' from rfl]
  exact norm_mono (by omega) hgs

/-- `Optional/build _ (Optional/fold _ e)` fuses to `normalize(e)` — the
one `Optional` fusion direction the source has. -/
theorem fusion_opt_build_fold (f : Nat) (A B e A' B' e' : Expr)
    (hf : 1 ≤ f) (hA : norm f A = .ok A') (hB : norm f B = .ok B')
    (he : norm f e = .ok e') :
    ∃ F, ∀ G, F ≤ G →
      norm G (.app (.app (.builtin .optionalBuild) A)
        (.app (.app (.builtin .optionalFold) B) e)) = .ok e' := by
  obtain ⟨gs, hgs⟩ := norm_idem f e e' he
  refine ⟨max f gs + 4, ?_⟩
  intro G hG
  obtain ⟨K1, rfl⟩ : ∃ K1, G = K1 + 4 := ⟨G - 4, by omega⟩
  have hfn : norm (K1 + 3) (.app (.builtin .optionalBuild) A) =
      .ok (.app (.builtin .optionalBuild) A') := by
    show (norm (K1 + 2) (.builtin .optionalBuild) >>= _) = _
    rw [norm_builtin_succ, okBind]
    show (norm (K1 + 2) A >>= _) = _
    rw [norm_mono (by omega) hA, okBind]
    exact normApp_builtinHead_stuck _ .optionalBuild A' (by simp) (by simp)
      (naturalRedex_none_bltn A' (by simp) (by simp) (by simp) (by simp)
        (by simp))
  have hOF : norm (K1 + 2) (.app (.builtin .optionalFold) B) =
      .ok (.app (.builtin .optionalFold) B') := by
    show (norm (K1 + 1) (.builtin .optionalFold) >>= _) = _
    rw [norm_builtin_succ, okBind]
    show (norm (K1 + 1) B >>= _) = _
    rw [norm_mono (by omega) hB, okBind]
    exact normApp_builtinHead_stuck _ .optionalFold B' (by simp) (by simp)
      (naturalRedex_none_bltn B' (by simp) (by simp) (by simp) (by simp)
        (by simp))
  have hfold : norm (K1 + 3) (.app (.app (.builtin .optionalFold) B) e) =
      .ok (.app (.app (.builtin .optionalFold) B') e') := by
    show (norm (K1 + 2) (.app (.builtin .optionalFold) B) >>= _) = _
    rw [hOF, okBind]
    show (norm (K1 + 2) e >>= _) = _
    rw [norm_mono (by omega) he, okBind]
    exact normApp_stuck _ _ _
      (fusionArg_none_app _ (by simp) (by simp))
      (naturalRedex_none_app _ _ _)
      (listBuildArg_none_app (by simp)) rfl
      (by intro fi x_ hfx; cases hfx; rfl) rfl
      (optionalFusionArg_none_app _ (by simp))
      (optionalBuildArg_none_app (by simp))
  show (norm (K1 + 3) (.app (.builtin .optionalBuild) A) >>= _) = _
  rw [hfn, okBind]
  show (norm (K1 + 3) (.app (.app (.builtin .optionalFold) B) e) >>= _) = _
  rw [hfold, okBind]
  show normApp _ _ _ = _
  rw [show normApp (norm (K1 + 3)) (.app (.builtin .optionalBuild) A')
    (.app (.app (.builtin .optionalFold) B') e') = norm (K1 + 3) e'
    from rfl]
  exact norm_mono (by omega) hgs

/-- `List/fold _ (List/build _ e)` fuses to `normalize(e)` when the inner
`List/build` is left stuck (its generator does not produce a `Cons`/`Nil`
spine); when the inner build succeeds it rewrites first and the pair the
fusion arm needs never forms. -/
theorem fusion_list_fold_build (f : Nat) (A B e A' B' e' L : Expr)
    (hf : 1 ≤ f) (hA : norm f A = .ok A') (hB : norm f B = .ok B')
    (he : norm f e = .ok e')
    (hfu2 : fusionArg (.app (.builtin .listBuild) B') e' = none)
    (hL : norm (f + 1) (.app (.app (.app e' (.app (.builtin .list) B'))
      (.var ⟨"Cons", 0⟩)) (.var ⟨"Nil", 0⟩)) = .ok L)
    (hc : check L = false) :
    ∃ F, ∀ G, F ≤ G →
      norm G (.app (.app (.builtin .listFold) A)
        (.app (.app (.builtin .listBuild) B) e)) = .ok e' := by
  obtain ⟨gs, hgs⟩ := norm_idem f e e' he
  refine ⟨max f gs + 4, ?_⟩
  intro G hG
  obtain ⟨K1, rfl⟩ : ∃ K1, G = K1 + 4 := ⟨G - 4, by omega⟩
  have hfn : norm (K1 + 3) (.app (.builtin .listFold) A) =
      .ok (.app (.builtin .listFold) A') := by
    show (norm (K1 + 2) (.builtin .listFold) >>= _) = _
    rw [norm_builtin_succ, okBind]
    show (norm (K1 + 2) A >>= _) = _
    rw [norm_mono (by omega) hA, okBind]
    exact normApp_builtinHead_stuck _ .listFold A' (by simp) (by simp)
      (naturalRedex_none_bltn A' (by simp) (by simp) (by simp) (by simp)
        (by simp))
  have hLB : norm (K1 + 2) (.app (.builtin .listBuild) B) =
      .ok (.app (.builtin .listBuild) B') := by
    show (norm (K1 + 1) (.builtin .listBuild) >>= _) = _
    rw [norm_builtin_succ, okBind]
    show (norm (K1 + 1) B >>= _) = _
    rw [norm_mono (by omega) hB, okBind]
    exact normApp_builtinHead_stuck _ .listBuild B' (by simp) (by simp)
      (naturalRedex_none_bltn B' (by simp) (by simp) (by simp) (by simp)
        (by simp))
  have hbuild : norm (K1 + 3) (.app (.app (.builtin .listBuild) B) e) =
      .ok (.app (.app (.builtin .listBuild) B') e') := by
    show (norm (K1 + 2) (.app (.builtin .listBuild) B) >>= _) = _
    rw [hLB, okBind]
    show (norm (K1 + 2) e >>= _) = _
    rw [norm_mono (by omega) he, okBind]
    unfold normApp
    rw [hfu2, naturalRedex_none_app]
    show (norm (K1 + 2) (.app (.app (.app e'
      (.app (.builtin .list) B')) (.var ⟨"Cons", 0⟩))
      (.var ⟨"Nil", 0⟩)) >>= _) = _
    rw [norm_mono (by omega) hL, okBind, if_neg (by simp [hc])]
  show (norm (K1 + 3) (.app (.builtin .listFold) A) >>= _) = _
  rw [hfn, okBind]
  show (norm (K1 + 3) (.app (.app (.builtin .listBuild) B) e) >>= _) = _
  rw [hbuild, okBind]
  show normApp _ _ _ = _
  rw [show normApp (norm (K1 + 3)) (.app (.builtin .listFold) A')
    (.app (.app (.builtin .listBuild) B') e') = norm (K1 + 3) e'
    from rfl]
  exact norm_mono (by omega) hgs

/-- C6 amended: the dispatch has fusion arms for `List` in both orders, for
`Natural` in both orders, and for `Optional` only in the build-after-fold
direction, and they fire before every non-fusion rule for the same builtin
(the same shapes would otherwise hit the `List/build` or `Optional/build`
arms).  At the level of whole expressions,
`normalize(build-side (fold-side e)) = normalize(e)` holds outright for
`List` build∘fold, `Natural` in both orders and `Optional` build∘fold
(provided the normal form of `e` does not itself complete an inner fusion
pair), and for `List` fold∘build exactly when the inner `List/build` is
left stuck; the `Optional` fold∘build direction does not exist. -/
theorem fusion_rules :
    (∀ (go : Expr → Res) (X Y e2 : Expr),
      normApp go (.app (.builtin .listBuild) X)
        (.app (.app (.builtin .listFold) Y) e2) = go e2 ∧
      normApp go (.app (.builtin .listFold) X)
        (.app (.app (.builtin .listBuild) Y) e2) = go e2 ∧
      normApp go (.app (.builtin .optionalBuild) X)
        (.app (.app (.builtin .optionalFold) Y) e2) = go e2) ∧
    (∀ (go : Expr → Res) (e2 : Expr),
      normApp go (.builtin .naturalBuild)
        (.app (.builtin .naturalFold) e2) = go e2 ∧
      normApp go (.builtin .naturalFold)
        (.app (.builtin .naturalBuild) e2) = go e2) ∧
    (∀ (f : Nat) (A B e A' B' e' : Expr), 1 ≤ f → norm f A = .ok A' →
      norm f B = .ok B' → norm f e = .ok e' →
      fusionArg (.app (.builtin .listFold) B') e' = none →
      ∃ F, ∀ G, F ≤ G →
        norm G (.app (.app (.builtin .listBuild) A)
          (.app (.app (.builtin .listFold) B) e)) = .ok e') ∧
    (∀ (f : Nat) (e e' : Expr), 1 ≤ f → norm f e = .ok e' →
      fusionArg (.builtin .naturalFold) e' = none →
      ∃ F, ∀ G, F ≤ G → norm G (.app (.builtin .naturalBuild)
        (.app (.builtin .naturalFold) e)) = .ok e') ∧
    (∀ (f : Nat) (e e' : Expr), 1 ≤ f → norm f e = .ok e' →
      fusionArg (.builtin .naturalBuild) e' = none →
      ∃ F, ∀ G, F ≤ G → norm G (.app (.builtin .naturalFold)
        (.app (.builtin .naturalBuild) e)) = .ok e') ∧
    (∀ (f : Nat) (A B e A' B' e' : Expr), 1 ≤ f → norm f A = .ok A' →
      norm f B = .ok B' → norm f e = .ok e' →
      ∃ F, ∀ G, F ≤ G →
        norm G (.app (.app (.builtin .optionalBuild) A)
          (.app (.app (.builtin .optionalFold) B) e)) = .ok e') ∧
    (∀ (f : Nat) (A B e A' B' e' L : Expr), 1 ≤ f → norm f A = .ok A' →
      norm f B = .ok B' → norm f e = .ok e' →
      fusionArg (.app (.builtin .listBuild) B') e' = none →
      norm (f + 1) (.app (.app (.app e' (.app (.builtin .list) B'))
        (.var ⟨"Cons", 0⟩)) (.var ⟨"Nil", 0⟩)) = .ok L →
      check L = false →
      ∃ F, ∀ G, F ≤ G →
        norm G (.app (.app (.builtin .listFold) A)
          (.app (.app (.builtin .listBuild) B) e)) = .ok e') :=
  ⟨fun go X Y e2 => ⟨rfl, rfl, rfl⟩,
   fun go e2 => ⟨rfl, rfl⟩,
   fun f A B e A' B' e' => fusion_list_build_fold f A B e A' B' e',
   fun f e e' => fusion_nat_build_fold f e e',
   fun f e e' => fusion_nat_fold_build f e e',
   fun f A B e A' B' e' => fusion_opt_build_fold f A B e A' B' e',
   fun f A B e A' B' e' L => fusion_list_fold_build f A B e A' B' e' L⟩

/-- C6 amended witness: `Natural/build (Natural/fold x)` normalizes to the
free variable `x`. -/
theorem fusion_rules_witness :
    ∃ F, ∀ G, F ≤ G → norm G (.app (.builtin .naturalBuild)
      (.app (.builtin .naturalFold) (.var ⟨"x", 0⟩))) =
      .ok (.var ⟨"x", 0⟩) :=
  fusion_rules.2.2.2.1 1 (.var ⟨"x", 0⟩) (.var ⟨"x", 0⟩) (by decide) rfl rfl

/-! ## No `Annot`, no `Note` in outputs -/

theorem normOpt_noAnnot {go : Expr → Res} {t : Option Expr}
    {t' : Option Expr}
    (hgo : ∀ e r, go e = .ok r → noAnnotNoteOut r = true)
    (h : normOpt go t = .ok t') : noAnnotNoteOutOpt t' = true := by
  cases t with
  | none =>
    obtain rfl : t' = none := by simpa [normOpt] using h.symm
    rfl
  | some e =>
    simp only [normOpt] at h
    obtain ⟨v, hv, h2⟩ := bindOk h
    obtain rfl : some v = t' := by simpa using h2
    simpa [noAnnotNoteOutOpt] using hgo _ _ hv

theorem normList_noAnnot {go : Expr → Res} :
    ∀ {es es' : List Expr},
    (∀ e r, go e = .ok r → noAnnotNoteOut r = true) →
    normList go es = .ok es' → noAnnotNoteOutList es' = true := by
  intro es
  induction es with
  | nil =>
    intro es' hgo h
    obtain rfl : es' = [] := by simpa [normList] using h.symm
    rfl
  | cons e es IH =>
    intro es' hgo h
    simp only [normList] at h
    obtain ⟨v, hv, h2⟩ := bindOk h
    obtain ⟨vs, hvs, h3⟩ := bindOk h2
    obtain rfl : v :: vs = es' := by simpa using h3
    simp [noAnnotNoteOutList, hgo _ _ hv, IH hgo hvs]

theorem normFields_noAnnot {go : Expr → Res} :
    ∀ {kvs kvs' : List (String × Expr)},
    (∀ e r, go e = .ok r → noAnnotNoteOut r = true) →
    normFields go kvs = .ok kvs' → noAnnotNoteOutFields kvs' = true := by
  intro kvs
  induction kvs with
  | nil =>
    intro kvs' hgo h
    obtain rfl : kvs' = [] := by simpa [normFields] using h.symm
    rfl
  | cons p kvs IH =>
    intro kvs' hgo h
    obtain ⟨k, v⟩ := p
    simp only [normFields] at h
    obtain ⟨w, hw, h2⟩ := bindOk h
    obtain ⟨ws, hws, h3⟩ := bindOk h2
    obtain rfl : (k, w) :: ws = kvs' := by simpa using h3
    simp [noAnnotNoteOutFields, hgo _ _ hw, IH hgo hws]

theorem naturalRedex_noAnnot {f2 a2 v : Expr}
    (h : naturalRedex f2 a2 = some v) : noAnnotNoteOut v = true := by
  unfold naturalRedex at h
  split at h <;> cases h <;> rfl

theorem listToVector_noAnnot : ∀ (L : Expr) (v : List Expr),
    listToVector L = some v → noAnnotNoteOut L = true →
    noAnnotNoteOutList v = true := by
  intro L
  induction L using listToVector.induct with
  | case1 i x e2 ih =>
    intro v hv hL
    rw [listToVector] at hv
    cases hlv : listToVector e2 with
    | none => rw [hlv] at hv; cases hv
    | some v2 =>
      rw [hlv] at hv
      obtain rfl : x :: v2 = v := by simpa using hv
      simp only [noAnnotNoteOut, Bool.true_and, Bool.and_eq_true] at hL
      simp [noAnnotNoteOutList, hL.1, ih v2 hlv hL.2]
  | case2 i =>
    intro v hv hL
    obtain rfl : ([] : List Expr) = v := by simpa [listToVector] using hv
    rfl
  | case3 e h1 h2 =>
    intro v hv hL
    rw [listToVector.eq_def] at hv
    split at hv <;> simp_all

theorem normApp_noAnnot {go : Expr → Res} {f2 a2 r : Expr}
    (hgo : ∀ e r, go e = .ok r → noAnnotNoteOut r = true)
    (hf2 : noAnnotNoteOut f2 = true) (ha2 : noAnnotNoteOut a2 = true)
    (h3 : normApp go f2 a2 = .ok r) : noAnnotNoteOut r = true := by
  unfold normApp at h3
  cases hs1 : fusionArg f2 a2 with
  | some e2 => rw [hs1] at h3; exact hgo _ _ h3
  | none =>
  rw [hs1] at h3
  cases hs2 : naturalRedex f2 a2 with
  | some v =>
    rw [hs2] at h3
    obtain rfl : v = r := by injection h3
    exact naturalRedex_noAnnot hs2
  | none =>
  rw [hs2] at h3
  cases hs3 : listBuildArg f2 with
  | some t =>
    rw [hs3] at h3
    obtain rfl := listBuildArg_some hs3
    obtain ⟨L, hL, hbody⟩ := bindOk h3
    have hLn : noAnnotNoteOut L = true := hgo _ _ hL
    by_cases hc : check L = true
    · rw [if_pos hc] at hbody
      obtain ⟨v, hv⟩ := check_listToVector L hc
      rw [hv] at hbody
      obtain rfl : Expr.listLit (some t) v = r := by injection hbody
      have hvn := listToVector_noAnnot L v hv hLn
      simp only [noAnnotNoteOut, Bool.and_eq_true] at hf2 ⊢
      exact ⟨by simpa [noAnnotNoteOutOpt] using hf2.2, hvn⟩
    · rw [if_neg hc] at hbody
      obtain rfl : Expr.app (.app (.builtin .listBuild) t) a2 = r := by
        injection hbody
      have ht : noAnnotNoteOut t = true := by simpa [noAnnotNoteOut] using hf2
      simp [noAnnotNoteOut, ht, ha2]
  | none =>
  rw [hs3] at h3
  cases hs4 : listFoldRedex f2 with
  | some p => rw [hs4] at h3; obtain ⟨xs, consF⟩ := p; exact hgo _ _ h3
  | none =>
  rw [hs4] at h3
  cases hs5 : appListLitArg f2 a2 with
  | some q =>
    rw [hs5] at h3
    obtain ⟨fi, x_, t, ys⟩ := q
    obtain ⟨rfl, rfl⟩ := appListLitArg_some hs5
    replace h3 : (match fi with
      | .builtin .listLength => (.ok (.naturalLit ys.length) : Res)
      | .builtin .listHead => go (.optionalLit t (ys.take 1))
      | .builtin .listLast => go (.optionalLit t (lastAsList ys))
      | .builtin .listReverse => go (.listLit t ys.reverse)
      | _ => .ok (.app (.app fi x_) (.listLit t ys))) = .ok r := h3
    split at h3
    · obtain rfl : Expr.naturalLit ys.length = r := by injection h3
      rfl
    · exact hgo _ _ h3
    · exact hgo _ _ h3
    · exact hgo _ _ h3
    · obtain rfl : Expr.app (.app fi x_) (.listLit t ys) = r := by
        injection h3
      simp only [noAnnotNoteOut, Bool.and_eq_true] at hf2 ha2 ⊢
      exact ⟨hf2, ha2⟩
  | none =>
  rw [hs5] at h3
  cases hs6 : optionalFoldRedex f2 with
  | some p => rw [hs6] at h3; obtain ⟨xs, just⟩ := p; exact hgo _ _ h3
  | none =>
  rw [hs6] at h3
  cases hs7 : optionalFusionArg f2 a2 with
  | some b => rw [hs7] at h3; exact hgo _ _ h3
  | none =>
  rw [hs7] at h3
  cases hs8 : optionalBuildArg f2 with
  | some a0 => rw [hs8] at h3; exact hgo _ _ h3
  | none =>
    rw [hs8] at h3
    obtain rfl : Expr.app f2 a2 = r := by injection h3
    simp [noAnnotNoteOut, hf2, ha2]

theorem withBinop_noAnnot {U : Type} {op : BinOp} {get : Expr → Option U}
    {set : U → U → Expr} (hset : ∀ a b, noAnnotNoteOut (set a b) = true)
    {x y : Expr} (hx : noAnnotNoteOut x = true) (hy : noAnnotNoteOut y = true) :
    noAnnotNoteOut (withBinop op get set x y) = true := by
  unfold withBinop
  split
  · exact hset _ _
  · simp [noAnnotNoteOut, hx, hy]

theorem norm_noAnnot : ∀ (f : Nat) (e r : Expr), norm f e = .ok r →
    noAnnotNoteOut r = true := by
  intro f
  induction f with
  | zero => intro e r h; simp [norm] at h
  | succ f IH =>
    intro e r h
    cases e with
    | const k =>
      obtain rfl : Expr.const k = r := by injection h
      rfl
    | var v =>
      obtain rfl : Expr.var v = r := by injection h
      rfl
    | lam x tA b =>
      obtain ⟨tA2, h1, h'⟩ := bindOk h
      obtain ⟨b2, h2, h3⟩ := bindOk h'
      obtain rfl : Expr.lam x tA2 b2 = r := by injection h3
      simp [noAnnotNoteOut, IH _ _ h1, IH _ _ h2]
    | pi x tA tB =>
      obtain ⟨tA2, h1, h'⟩ := bindOk h
      obtain ⟨tB2, h2, h3⟩ := bindOk h'
      obtain rfl : Expr.pi x tA2 tB2 = r := by injection h3
      simp [noAnnotNoteOut, IH _ _ h1, IH _ _ h2]
    | app fn a =>
      obtain ⟨f2, h1, h'⟩ := bindOk h
      have hf2 := IH _ _ h1
      match f2, h', hf2 with
      | .lam x _A b, h', _ => exact IH _ _ h'
      | .const k, h', hf2 | .var v, h', hf2 | .pi x t bo, h', hf2
      | .app g c, h', hf2 | .«let» x t rr bo, h', hf2
      | .annot e2 t, h', hf2 | .builtin b, h', hf2 | .boolLit b, h', hf2
      | .naturalLit n, h', hf2 | .integerLit n, h', hf2
      | .doubleLit d, h', hf2 | .textLit t, h', hf2
      | .binOp op a2 b2, h', hf2 | .boolIf c t e2, h', hf2
      | .listLit t es, h', hf2 | .optionalLit t es, h', hf2
      | .record kts, h', hf2 | .recordLit kvs, h', hf2
      | .union kts, h', hf2 | .unionLit k v kvs, h', hf2
      | .merge a2 b2 t, h', hf2 | .field r2 l, h', hf2
      | .note s e2, h', hf2 | .embed s, h', hf2 =>
        obtain ⟨a2', h2, h3⟩ := bindOk h'
        exact normApp_noAnnot IH hf2 (IH _ _ h2) h3
    | «let» x ty r' b => exact IH _ _ h
    | annot e' ty => exact IH _ _ h
    | builtin b =>
      obtain rfl : Expr.builtin b = r := by injection h
      rfl
    | boolLit b =>
      obtain rfl : Expr.boolLit b = r := by injection h
      rfl
    | naturalLit n =>
      obtain rfl : Expr.naturalLit n = r := by injection h
      rfl
    | integerLit n =>
      obtain rfl : Expr.integerLit n = r := by injection h
      rfl
    | doubleLit d =>
      obtain rfl : Expr.doubleLit d = r := by injection h
      rfl
    | textLit t =>
      obtain rfl : Expr.textLit t = r := by injection h
      rfl
    | binOp op x y =>
      cases op <;>
        first
          | (obtain ⟨xv, h1, h'⟩ := bindOk h;
             obtain ⟨yv, h2, h3⟩ := bindOk h';
             obtain rfl := (Except.ok.inj h3).symm;
             refine withBinop_noAnnot ?_ (IH _ _ h1) (IH _ _ h2);
             intro a b; rfl)
          | simp [norm] at h
    | boolIf c t e' =>
      obtain ⟨b2, h1, h'⟩ := bindOk h
      have hb2 := IH _ _ h1
      match b2, h', hb2 with
      | .boolLit true, h', _ => exact IH _ _ h'
      | .boolLit false, h', _ => exact IH _ _ h'
      | .const k, h', hb2 | .var v, h', hb2 | .lam x ty bo, h', hb2
      | .pi x ty bo, h', hb2 | .app g c2, h', hb2
      | .«let» x ty rr bo, h', hb2 | .annot e2 ty, h', hb2
      | .builtin b, h', hb2 | .naturalLit n, h', hb2
      | .integerLit n, h', hb2 | .doubleLit d, h', hb2
      | .textLit ty, h', hb2 | .binOp op a2 b3, h', hb2
      | .boolIf c2 ty e2, h', hb2 | .listLit ty es, h', hb2
      | .optionalLit ty es, h', hb2 | .record kts, h', hb2
      | .recordLit kvs, h', hb2 | .union kts, h', hb2
      | .unionLit k v kvs, h', hb2 | .merge a2 b3 ty, h', hb2
      | .field r2 l, h', hb2 | .note s e2, h', hb2 | .embed s, h', hb2 =>
        obtain ⟨t2, h2, h''⟩ := bindOk h'
        obtain ⟨e2', h3, h4⟩ := bindOk h''
        obtain rfl := (Except.ok.inj h4)
        have h5 := IH _ _ h2
        have h6 := IH _ _ h3
        clear h h' h'' h4 h2 h3 IH
        simp_all [noAnnotNoteOut]
    | listLit ty es =>
      obtain ⟨t2, h1, h'⟩ := bindOk h
      obtain ⟨es2, h2, h3⟩ := bindOk h'
      obtain rfl : Expr.listLit t2 es2 = r := by injection h3
      simp [noAnnotNoteOut, normOpt_noAnnot IH h1, normList_noAnnot IH h2]
    | optionalLit ty es =>
      obtain ⟨t2, h1, h'⟩ := bindOk h
      obtain ⟨es2, h2, h3⟩ := bindOk h'
      obtain rfl : Expr.optionalLit t2 es2 = r := by injection h3
      simp [noAnnotNoteOut, normOpt_noAnnot IH h1, normList_noAnnot IH h2]
    | record kts =>
      obtain ⟨kts2, h1, h2⟩ := bindOk h
      obtain rfl : Expr.record kts2 = r := by injection h2
      simpa [noAnnotNoteOut] using normFields_noAnnot IH h1
    | recordLit kvs =>
      obtain ⟨kvs2, h1, h2⟩ := bindOk h
      obtain rfl : Expr.recordLit kvs2 = r := by injection h2
      simpa [noAnnotNoteOut] using normFields_noAnnot IH h1
    | union kts =>
      obtain ⟨kts2, h1, h2⟩ := bindOk h
      obtain rfl : Expr.union kts2 = r := by injection h2
      simpa [noAnnotNoteOut] using normFields_noAnnot IH h1
    | unionLit k v kvs =>
      obtain ⟨v2, h1, h'⟩ := bindOk h
      obtain ⟨kvs2, h2, h3⟩ := bindOk h'
      obtain rfl : Expr.unionLit k v2 kvs2 = r := by injection h3
      simp [noAnnotNoteOut, IH _ _ h1, normFields_noAnnot IH h2]
    | merge a b t => simp [norm] at h
    | field r' l =>
      obtain ⟨r2, h1, h'⟩ := bindOk h
      have hr2 := IH _ _ h1
      match r2, h', hr2 with
      | .recordLit kvs, h', hr2 =>
        replace h' : (match lookupField kvs l with
          | some r3 => norm f r3
          | none => do
              .ok (.field (.recordLit (← normFields (norm f) kvs)) l)) =
            .ok r := h'
        cases hlk : lookupField kvs l with
        | some r3 =>
          rw [hlk] at h'
          exact IH _ _ h'
        | none =>
          rw [hlk] at h'
          obtain ⟨kvs2, h2, h3⟩ := bindOk h'
          obtain rfl : Expr.field (.recordLit kvs2) l = r := by injection h3
          simpa [noAnnotNoteOut] using normFields_noAnnot IH h2
      | .const k, h', hr2 | .var v, h', hr2 | .lam x ty bo, h', hr2
      | .pi x ty bo, h', hr2 | .app g c2, h', hr2
      | .«let» x ty rr bo, h', hr2 | .annot e2 ty, h', hr2
      | .builtin b, h', hr2 | .boolLit b, h', hr2
      | .naturalLit n, h', hr2 | .integerLit n, h', hr2
      | .doubleLit d, h', hr2 | .textLit ty, h', hr2
      | .binOp op a2 b3, h', hr2 | .boolIf c2 ty e2, h', hr2
      | .listLit ty es, h', hr2 | .optionalLit ty es, h', hr2
      | .record kts, h', hr2 | .union kts, h', hr2
      | .unionLit k v kvs, h', hr2 | .merge a2 b3 ty, h', hr2
      | .field r3 l2, h', hr2 | .note s e2, h', hr2 | .embed s, h', hr2 =>
        obtain rfl := (Except.ok.inj h')
        simpa [noAnnotNoteOut] using hr2
    | note s e' => exact IH _ _ h
    | embed s =>
      obtain rfl : Expr.embed s = r := by injection h
      rfl

/-! ## Claim C1 -/

/-- C1 counterexample: normalizing a `Merge` node does not return a stuck
redex — it reaches the source's `unimplemented!()` panic, so the claim that
`normalize` never raises is false at this input. -/
theorem merge_panics_cex :
    norm 5 (.merge (.recordLit []) (.boolLit true) none) =
      .error .unimplemented := rfl

/-- C1 amended: `normalize` panics (`unimplemented!()`) on every `Merge`
node and on every `BinOp` with no reduction rule (`ListAppend`, `Combine`,
`Prefer`, `CombineTypes`, `ImportAlt`), instead of returning them as stuck
redexes; on the constructs it does handle no error other than these panics
arises. -/
theorem unimplemented_constructs_panic (f : Nat) (x y : Expr)
    (t : Option Expr) :
    norm (f + 1) (.merge x y t) = .error .unimplemented ∧
    norm (f + 1) (.binOp .listAppend x y) = .error .unimplemented ∧
    norm (f + 1) (.binOp .combine x y) = .error .unimplemented ∧
    norm (f + 1) (.binOp .prefer x y) = .error .unimplemented ∧
    norm (f + 1) (.binOp .combineTypes x y) = .error .unimplemented ∧
    norm (f + 1) (.binOp .importAlt x y) = .error .unimplemented :=
  ⟨rfl, rfl, rfl, rfl, rfl, rfl⟩

/-! ## Claim C2 -/

/-- C2: `Optional/fold Natural (OptionalLit Natural [5]) Natural j n`
normalizes to `j n`: the source's fold (normalize.rs line 152) ignores the
single item and applies `just` to `nothing`, instead of producing `j 5` as
the specification states. -/
theorem optionalFold_ignores_item :
    norm 10 (.app (.app (.app (.app (.app
        (.builtin .optionalFold) (.builtin .natural))
        (.optionalLit (some (.builtin .natural)) [.naturalLit 5]))
        (.builtin .natural)) (.var ⟨"j", 0⟩)) (.var ⟨"n", 0⟩)) =
      .ok (.app (.var ⟨"j", 0⟩) (.var ⟨"n", 0⟩)) := rfl

/-! ## Claim C3 -/

/-- C3 counterexample: normalizing the AST of `"[1,2,3] # [4,5]"` does not
yield `ListLit(None, [1,2,3,4,5])` — it reaches the `unimplemented!()`
catch-all, because the normalizer has no `ListAppend` case at all. -/
theorem listAppend_example_panics_cex :
    norm 20 (.binOp .listAppend
        (.listLit none [.naturalLit 1, .naturalLit 2, .naturalLit 3])
        (.listLit none [.naturalLit 4, .naturalLit 5])) =
      .error .unimplemented := rfl

/-- C3 amended: `normalize` has no rule for `ListAppend`; every
`BinOp(ListAppend, x, y)` — both operands' shapes notwithstanding — hits
the source's `unimplemented!()` catch-all instead of concatenating. -/
theorem listAppend_unimplemented (f : Nat) (x y : Expr) :
    norm (f + 1) (.binOp .listAppend x y) = .error .unimplemented := rfl

/-! ## Claim C8 -/

/-- C8 counterexample: the escapes `\b`, `\f` and `A` are accepted by
the grammar's double-quote-escaped rule but their conversion reaches
`unimplemented!()` — a panic, not a `ParseError`. -/
theorem unhandled_escape_panics_cex :
    grammarEscape "b" = true ∧ grammarEscape "f" = true ∧
    grammarEscape "u0041" = true ∧
    doubleQuoteEscaped "b" = .error .unimplemented ∧
    doubleQuoteEscaped "f" = .error .unimplemented ∧
    doubleQuoteEscaped "u0041" = .error .unimplemented :=
  ⟨rfl, rfl, by decide, rfl, rfl, rfl⟩

/-- C8 amended: the double-quote escape conversion handles exactly the
seven escapes `"`, `$`, `\`, `/`, `n`, `r`, `t`; every other captured
escape text (the grammar-accepted `b`, `f` and `uXXXX` included) panics
via `unimplemented!()` instead of being reported as a `ParseError`. -/
theorem doubleQuoteEscaped_partial :
    doubleQuoteEscaped "\"" = .ok "\"" ∧
    doubleQuoteEscaped "$" = .ok "$" ∧
    doubleQuoteEscaped "\\" = .ok "\\" ∧
    doubleQuoteEscaped "/" = .ok "/" ∧
    doubleQuoteEscaped "n" = .ok "\n" ∧
    doubleQuoteEscaped "r" = .ok "\r" ∧
    doubleQuoteEscaped "t" = .ok "\t" ∧
    (∀ s : String,
      s ∉ (["\"", "$", "\\", "/", "n", "r", "t"] : List String) →
      doubleQuoteEscaped s = .error .unimplemented) := by
  refine ⟨rfl, rfl, rfl, rfl, rfl, rfl, rfl, ?_⟩
  intro s hs
  unfold doubleQuoteEscaped
  split <;> simp_all

/-- C8 amended witness: instantiating the final conjunct at `"u0041"`. -/
theorem doubleQuoteEscaped_partial_witness :
    doubleQuoteEscaped "u0041" = .error .unimplemented :=
  doubleQuoteEscaped_partial.2.2.2.2.2.2.2 "u0041" (by decide)

/-! ## Claim C9 -/

/-- C9: natural literals behave as 64-bit machine words: `NaturalPlus` and
`NaturalTimes` on two `NaturalLit`s are unchecked machine operations (exact
exactly while the mathematical result fits the word), and
`Natural/toInteger` is the raw cast `n as isize`, which is negative for
every representable `n` at or above `2^63`. -/
theorem natural_machine_words (f : Nat) (x y n : Nat) :
    norm (f + 2) (.binOp .naturalPlus (.naturalLit x) (.naturalLit y)) =
      .ok (.naturalLit (usizeAdd x y)) ∧
    norm (f + 2) (.binOp .naturalTimes (.naturalLit x) (.naturalLit y)) =
      .ok (.naturalLit (usizeMul x y)) ∧
    (x + y < wordSize → usizeAdd x y = x + y) ∧
    (wordSize ≤ x + y → usizeAdd x y ≠ x + y) ∧
    norm (f + 2) (.app (.builtin .naturalToInteger) (.naturalLit n)) =
      .ok (.integerLit (usizeAsIsize n)) ∧
    (2 ^ 63 ≤ n → n < wordSize → usizeAsIsize n < 0) := by
  refine ⟨rfl, rfl, ?_, ?_, rfl, ?_⟩
  · intro h
    simp [usizeAdd, Nat.mod_eq_of_lt h]
  · intro h
    have : usizeAdd x y < wordSize := Nat.mod_lt _ (by norm_num [wordSize])
    omega
  · intro h1 h2
    simp only [usizeAsIsize, wordSize]
    rw [if_neg (by omega)]
    have : (n : Int) < 2 ^ 64 := by exact_mod_cast h2
    norm_num at this ⊢
    omega

/-- C9 witness: at `n = 2^63` the cast is the negative value `-2^63`, and
`2^63 + 2^63` wraps to `0`. -/
theorem natural_machine_words_witness :
    usizeAsIsize (2 ^ 63) < 0 ∧ usizeAdd (2 ^ 63) (2 ^ 63) ≠ 2 ^ 63 + 2 ^ 63 := by
  constructor
  · exact (natural_machine_words 0 0 0 (2 ^ 63)).2.2.2.2.2 (by norm_num)
      (by norm_num [wordSize])
  · exact (natural_machine_words 0 (2 ^ 63) (2 ^ 63) 0).2.2.2.1
      (by norm_num [wordSize])

/-! ## Claim C4, counterexample -/

/-- C4 counterexample: `Natural/fold 1 Natural (λx. x+1) 0` does not
normalize to `normalize(succ zero) = 1` — the fold code of the source is
commented out, so the whole spine is left stuck. -/
theorem naturalFold_not_iterated_cex :
    norm 10 (.app (.app (.app (.app
        (.builtin .naturalFold) (.naturalLit 1)) (.builtin .natural))
        (.lam "x" (.builtin .natural)
          (.binOp .naturalPlus (.var ⟨"x", 0⟩) (.naturalLit 1))))
        (.naturalLit 0)) ≠
      norm 10 (.app
        (.lam "x" (.builtin .natural)
          (.binOp .naturalPlus (.var ⟨"x", 0⟩) (.naturalLit 1)))
        (.naturalLit 0)) := by
  have h1 : norm 10 (.app (.app (.app (.app
      (.builtin .naturalFold) (.naturalLit 1)) (.builtin .natural))
      (.lam "x" (.builtin .natural)
        (.binOp .naturalPlus (.var ⟨"x", 0⟩) (.naturalLit 1))))
      (.naturalLit 0)) =
      .ok (.app (.app (.app (.app
        (.builtin .naturalFold) (.naturalLit 1)) (.builtin .natural))
        (.lam "x" (.builtin .natural)
          (.binOp .naturalPlus (.var ⟨"x", 0⟩) (.naturalLit 1))))
        (.naturalLit 0)) := rfl
  have h2 : norm 10 (.app
      (.lam "x" (.builtin .natural)
        (.binOp .naturalPlus (.var ⟨"x", 0⟩) (.naturalLit 1)))
      (.naturalLit 0)) = .ok (.naturalLit 1) := rfl
  rw [h1, h2]
  simp

/-! ## Claim C4, amended -/

/-- C4 amended: the `Natural/fold` iteration only exists in a comment block
of the source; a `Natural/fold (NaturalLit n) A succ zero` application spine
is left stuck, with its arguments normalized, whatever `n` is. -/
theorem naturalFold_left_stuck (f n : Nat) (A s z A' s' z' : Expr)
    (hf : 1 ≤ f) (hA : norm f A = .ok A') (hs : norm f s = .ok s')
    (hz : norm f z = .ok z') :
    norm (f + 4) (.app (.app (.app (.app (.builtin .naturalFold)
        (.naturalLit n)) A) s) z) =
      .ok (.app (.app (.app (.app (.builtin .naturalFold)
        (.naturalLit n)) A') s') z') := by
  obtain ⟨g, rfl⟩ : ∃ g, f = g + 1 := ⟨f - 1, by omega⟩
  have ht1 : norm (g + 2) (.app (.builtin .naturalFold) (.naturalLit n)) =
      .ok (.app (.builtin .naturalFold) (.naturalLit n)) := rfl
  have ht2 : norm (g + 3)
      (.app (.app (.builtin .naturalFold) (.naturalLit n)) A) =
      .ok (.app (.app (.builtin .naturalFold) (.naturalLit n)) A') := by
    show (norm (g + 2) (.app (.builtin .naturalFold) (.naturalLit n)) >>= _)
      = _
    rw [ht1, okBind]
    show (norm (g + 2) A >>= _) = _
    rw [norm_mono (by omega) hA, okBind]
    exact normApp_stuck _ _ _
      (by unfold fusionArg; split <;> simp_all)
      (by unfold naturalRedex; split <;> simp_all)
      rfl rfl
      (by intro f x_ hfx; cases hfx; rfl)
      rfl rfl rfl
  have ht3 : norm (g + 4)
      (.app (.app (.app (.builtin .naturalFold) (.naturalLit n)) A) s) =
      .ok (.app (.app (.app (.builtin .naturalFold) (.naturalLit n)) A')
        s') := by
    show (norm (g + 3)
      (.app (.app (.builtin .naturalFold) (.naturalLit n)) A) >>= _) = _
    rw [ht2, okBind]
    show (norm (g + 3) s >>= _) = _
    rw [norm_mono (by omega) hs, okBind]
    exact normApp_stuck _ _ _
      (by unfold fusionArg; split <;> simp_all)
      (by unfold naturalRedex; split <;> simp_all)
      rfl
      (by unfold listFoldRedex; split <;> simp_all)
      (by intro f x_ hfx; cases hfx; rfl)
      (by unfold optionalFoldRedex; split <;> simp_all)
      (by unfold optionalFusionArg; split <;> simp_all)
      rfl
  show (norm (g + 4)
    (.app (.app (.app (.builtin .naturalFold) (.naturalLit n)) A) s) >>= _)
    = _
  rw [ht3, okBind]
  show (norm (g + 4) z >>= _) = _
  rw [norm_mono (by omega) hz, okBind]
  exact normApp_stuck _ _ _
    (by unfold fusionArg; split <;> simp_all)
    (by unfold naturalRedex; split <;> simp_all)
    rfl
    (by unfold listFoldRedex; split <;> simp_all)
    (by intro f x_ hfx; cases hfx; rfl)
    (by unfold optionalFoldRedex; split <;> simp_all)
    (by unfold optionalFusionArg; split <;> simp_all)
    rfl

/-- C4 amended witness: `Natural/fold 1 Natural Natural 0` is left stuck
unchanged. -/
theorem naturalFold_left_stuck_witness :
    norm 5 (.app (.app (.app (.app (.builtin .naturalFold)
        (.naturalLit 1)) (.builtin .natural)) (.builtin .natural))
        (.naturalLit 0)) =
      .ok (.app (.app (.app (.app (.builtin .naturalFold)
        (.naturalLit 1)) (.builtin .natural)) (.builtin .natural))
        (.naturalLit 0)) :=
  naturalFold_left_stuck 1 1 (.builtin .natural) (.builtin .natural)
    (.naturalLit 0) (.builtin .natural) (.builtin .natural) (.naturalLit 0)
    (by decide) rfl rfl rfl

/-! ## Claim C5 -/

/-- C5 counterexample: for `g` that normalizes to a `List/fold`
application, fusion preempts the `List/build` rule — the result is
`normalize(e)` (here the free variable `e`), which is neither a `ListLit`
nor the original stuck application the claim's dichotomy requires. -/
theorem listBuild_fusion_preempts_cex :
    norm 20 (.app (.app (.builtin .listBuild) (.builtin .natural))
        (.app (.app (.builtin .listFold) (.builtin .natural))
          (.var ⟨"e", 0⟩))) = .ok (.var ⟨"e", 0⟩) ∧
    (Expr.var ⟨"e", 0⟩) ≠
      .app (.app (.builtin .listBuild) (.builtin .natural))
        (.app (.app (.builtin .listFold) (.builtin .natural))
          (.var ⟨"e", 0⟩)) :=
  ⟨rfl, by simp⟩

/-- C5 amended: unless fold/build fusion applies (that is, unless `g`
normalizes to a `List/fold` application), `List/build A g` evaluates
`g (List A) Cons Nil`; if and only if the normalized result `L` is a fully
`Cons`/`Nil` spine, the result is `ListLit(A', items)` with the spine's
elements in order (the internal spine-decomposition panic being unreachable
then), otherwise the original application is left stuck with normalized
parts. -/
theorem listBuild_spine_check (f : Nat) (A g A' g' L : Expr)
    (hf : 1 ≤ f) (hA : norm f A = .ok A') (hg : norm f g = .ok g')
    (hfu : fusionArg (.app (.builtin .listBuild) A') g' = none)
    (hL : norm (f + 1) (.app (.app (.app g' (.app (.builtin .list) A'))
        (.var ⟨"Cons", 0⟩)) (.var ⟨"Nil", 0⟩)) = .ok L) :
    (check L = true → ∃ v, listToVector L = some v ∧
      norm (f + 2) (.app (.app (.builtin .listBuild) A) g) =
        .ok (.listLit (some A') v)) ∧
    (check L = false →
      norm (f + 2) (.app (.app (.builtin .listBuild) A) g) =
        .ok (.app (.app (.builtin .listBuild) A') g')) := by
  obtain ⟨w, rfl⟩ : ∃ w, f = w + 1 := ⟨f - 1, by omega⟩
  have hfn : norm (w + 2) (.app (.builtin .listBuild) A) =
      .ok (.app (.builtin .listBuild) A') := by
    show (norm (w + 1) (.builtin .listBuild) >>= _) = _
    rw [show norm (w + 1) (.builtin .listBuild) =
      .ok (.builtin .listBuild) from rfl, okBind]
    show (norm (w + 1) A >>= _) = _
    rw [hA, okBind]
    exact normApp_stuck _ _ _
      (by unfold fusionArg; split <;> simp_all)
      (by unfold naturalRedex; split <;> simp_all)
      rfl rfl
      (by intro f x_ hfx; cases hfx)
      rfl rfl rfl
  have hmain : norm (w + 3) (.app (.app (.builtin .listBuild) A) g) =
      (do
        let labeled ← norm (w + 2) (.app (.app (.app g'
          (.app (.builtin .list) A')) (.var ⟨"Cons", 0⟩))
          (.var ⟨"Nil", 0⟩))
        if check labeled then
          match listToVector labeled with
          | some v => .ok (.listLit (some A') v)
          | none => .error .internal
        else .ok (.app (.app (.builtin .listBuild) A') g')) := by
    show (norm (w + 2) (.app (.builtin .listBuild) A) >>= _) = _
    rw [hfn, okBind]
    show (norm (w + 2) g >>= _) = _
    rw [norm_mono (by omega) hg, okBind]
    unfold normApp
    rw [hfu]
    rw [show naturalRedex (.app (.builtin .listBuild) A') g' = none from
      by unfold naturalRedex; split <;> simp_all]
    rfl
  refine ⟨?_, ?_⟩
  · intro hc
    obtain ⟨v, hv⟩ := check_listToVector L hc
    refine ⟨v, hv, ?_⟩
    rw [hmain, hL, okBind, if_pos hc, hv]
  · intro hc
    rw [hmain, hL, okBind, if_neg (by simp [hc])]

/-- C5 amended witness: a stuck generator (`g` a free variable) produces a
non-spine, and the application is left stuck. -/
theorem listBuild_spine_check_witness :
    norm 7 (.app (.app (.builtin .listBuild) (.builtin .natural))
        (.var ⟨"g", 0⟩)) =
      .ok (.app (.app (.builtin .listBuild) (.builtin .natural))
        (.var ⟨"g", 0⟩)) :=
  (listBuild_spine_check 5 (.builtin .natural) (.var ⟨"g", 0⟩)
      (.builtin .natural) (.var ⟨"g", 0⟩)
      (.app (.app (.app (.var ⟨"g", 0⟩)
        (.app (.builtin .list) (.builtin .natural)))
        (.var ⟨"Cons", 0⟩)) (.var ⟨"Nil", 0⟩))
      (by decide) rfl rfl rfl rfl).2 rfl

/-! ## Claim C6, counterexample -/

/-- C6 counterexample: fusion in the order `Optional/fold` after
`Optional/build` does not fire — the source only has the
`Optional/build (Optional/fold e)` direction — so the composite does not
normalize to `normalize(e)` (here `e = g`, a free variable). -/
theorem optional_fold_build_no_fusion_cex :
    norm 20 (.app (.app (.builtin .optionalFold) (.builtin .natural))
        (.app (.app (.builtin .optionalBuild) (.builtin .natural))
          (.var ⟨"g", 0⟩))) ≠
      norm 20 (.var ⟨"g", 0⟩) := by
  have h1 : norm 20 (.app (.app (.builtin .optionalFold) (.builtin .natural))
      (.app (.app (.builtin .optionalBuild) (.builtin .natural))
        (.var ⟨"g", 0⟩))) =
      .ok (.app (.app (.builtin .optionalFold) (.builtin .natural))
        (.app (.app (.app (.var ⟨"g", 0⟩)
            (.app (.builtin .optional) (.builtin .natural)))
          (.lam "x" (.builtin .natural)
            (.optionalLit (some (.builtin .natural)) [.var ⟨"x", 0⟩])))
          (.optionalLit (some (.builtin .natural)) []))) := rfl
  have h2 : norm 20 (.var ⟨"g", 0⟩) = .ok (.var ⟨"g", 0⟩) := rfl
  rw [h1, h2]
  simp

/-! ## Claim C10 -/

/-- C10 counterexample: a text literal is cloned with its interpolation
holes untouched (normalize.rs line 230), so the `Annot` inside the hole of
`"${1 : Natural}"` survives normalization — the result does contain an
`Annot` node, refuting "no `Annot` ... anywhere". -/
theorem annot_in_text_hole_survives_cex :
    norm 2 (.textLit [.inr (.annot (.naturalLit 1) (.builtin .natural))]) =
      .ok (.textLit
        [.inr (.annot (.naturalLit 1) (.builtin .natural))]) ∧
    noAnnotNote
      (.textLit [.inr (.annot (.naturalLit 1) (.builtin .natural))]) =
        false :=
  ⟨rfl, rfl⟩

/-- C10 amended: whenever `norm` returns a result, that result contains no
`Annot` and no `Note` node at any position outside text-literal
interpolation holes — both are unwrapped at every other position during
normalization and no rewrite or congruence case reconstructs them; text
literals, however, are cloned with their holes unnormalized, so an `Annot`
or `Note` inside a hole survives. -/
theorem normalize_no_annot_note (f : Nat) (e r : Expr)
    (h : norm f e = .ok r) : noAnnotNoteOut r = true :=
  norm_noAnnot f e r h

/-- C10 witness: normalizing the annotated, `Note`-wrapped literal
`Note(s, Annot(1, Natural))` returns the bare literal `1`, and the claim
theorem applies to that run. -/
theorem normalize_no_annot_note_witness :
    noAnnotNoteOut (Expr.naturalLit 1) = true :=
  normalize_no_annot_note 3
    (.note "s" (.annot (.naturalLit 1) (.builtin .natural)))
    (.naturalLit 1) rfl

end DhallSpec
